import Mathlib

/-!
Verification development for `packages/workflow/src/NodeHelpers.ts`.

The TypeScript module works over untyped JSON-like value trees
(`INodeParameters`), so we model JavaScript values with `PValue` and
JavaScript's `undefined` as `Option PValue = none`.  JavaScript numbers are
modelled by `Int` (the schemas and values in scope use integral numbers
only).  Runtime `TypeError`s (indexing `undefined`/`null`, iterating a
non-iterable) and `throw new Error(...)` are both modelled with
`Except String`.
-/

/-- JavaScript value as used by node parameter trees: string, number,
boolean, null, array, or plain object (insertion-ordered fields). -/
inductive PValue : Type where
  | str (s : String)
  | num (n : Int)
  | bool (b : Bool)
  | null
  | arr (xs : List PValue)
  | obj (fields : List (String × PValue))
deriving Repr

mutual

/-- Structural equality of JavaScript values (lodash `isEqual`). -/
def PValue.beq : PValue → PValue → Bool
  | .str a, .str b => a == b
  | .num a, .num b => a == b
  | .bool a, .bool b => a == b
  | .null, .null => true
  | .arr xs, .arr ys => PValue.beqList xs ys
  | .obj xs, .obj ys => PValue.beqFields xs ys
  | _, _ => false

def PValue.beqList : List PValue → List PValue → Bool
  | [], [] => true
  | x :: xs, y :: ys => PValue.beq x y && PValue.beqList xs ys
  | _, _ => false

def PValue.beqFields : List (String × PValue) → List (String × PValue) → Bool
  | [], [] => true
  | (k1, v1) :: xs, (k2, v2) :: ys =>
    k1 == k2 && PValue.beq v1 v2 && PValue.beqFields xs ys
  | _, _ => false

end

mutual

theorem PValue.eq_of_beq : ∀ {a b : PValue}, PValue.beq a b = true → a = b
  | .str _, .str _, h => congrArg PValue.str (by simpa [PValue.beq] using h)
  | .str _, .num _, h => Bool.noConfusion h
  | .str _, .bool _, h => Bool.noConfusion h
  | .str _, .null, h => Bool.noConfusion h
  | .str _, .arr _, h => Bool.noConfusion h
  | .str _, .obj _, h => Bool.noConfusion h
  | .num _, .str _, h => Bool.noConfusion h
  | .num _, .num _, h => congrArg PValue.num (by simpa [PValue.beq] using h)
  | .num _, .bool _, h => Bool.noConfusion h
  | .num _, .null, h => Bool.noConfusion h
  | .num _, .arr _, h => Bool.noConfusion h
  | .num _, .obj _, h => Bool.noConfusion h
  | .bool _, .str _, h => Bool.noConfusion h
  | .bool _, .num _, h => Bool.noConfusion h
  | .bool _, .bool _, h => congrArg PValue.bool (by simpa [PValue.beq] using h)
  | .bool _, .null, h => Bool.noConfusion h
  | .bool _, .arr _, h => Bool.noConfusion h
  | .bool _, .obj _, h => Bool.noConfusion h
  | .null, .str _, h => Bool.noConfusion h
  | .null, .num _, h => Bool.noConfusion h
  | .null, .bool _, h => Bool.noConfusion h
  | .null, .null, _ => rfl
  | .null, .arr _, h => Bool.noConfusion h
  | .null, .obj _, h => Bool.noConfusion h
  | .arr _, .str _, h => Bool.noConfusion h
  | .arr _, .num _, h => Bool.noConfusion h
  | .arr _, .bool _, h => Bool.noConfusion h
  | .arr _, .null, h => Bool.noConfusion h
  | .arr _, .arr _, h => congrArg PValue.arr (PValue.eqList_of_beqList h)
  | .arr _, .obj _, h => Bool.noConfusion h
  | .obj _, .str _, h => Bool.noConfusion h
  | .obj _, .num _, h => Bool.noConfusion h
  | .obj _, .bool _, h => Bool.noConfusion h
  | .obj _, .null, h => Bool.noConfusion h
  | .obj _, .arr _, h => Bool.noConfusion h
  | .obj _, .obj _, h => congrArg PValue.obj (PValue.eqFields_of_beqFields h)

theorem PValue.eqList_of_beqList :
    ∀ {xs ys : List PValue}, PValue.beqList xs ys = true → xs = ys
  | [], [], _ => rfl
  | [], _ :: _, h => Bool.noConfusion h
  | _ :: _, [], h => Bool.noConfusion h
  | x :: xs, y :: ys, h => by
      have h2 : PValue.beq x y = true ∧ PValue.beqList xs ys = true := by
        simpa [PValue.beqList, Bool.and_eq_true] using h
      rw [PValue.eq_of_beq h2.1, PValue.eqList_of_beqList h2.2]

theorem PValue.eqFields_of_beqFields :
    ∀ {xs ys : List (String × PValue)}, PValue.beqFields xs ys = true → xs = ys
  | [], [], _ => rfl
  | [], _ :: _, h => Bool.noConfusion h
  | _ :: _, [], h => Bool.noConfusion h
  | (k1, v1) :: xs, (k2, v2) :: ys, h => by
      have h2 : (k1 == k2) = true ∧ PValue.beq v1 v2 = true ∧
          PValue.beqFields xs ys = true := by
        simpa [PValue.beqFields, Bool.and_eq_true, and_assoc] using h
      have hk : k1 = k2 := by simpa using h2.1
      rw [hk, PValue.eq_of_beq h2.2.1, PValue.eqFields_of_beqFields h2.2.2]

end

mutual

theorem PValue.beq_refl : ∀ (a : PValue), PValue.beq a a = true
  | .str a => by simp [PValue.beq]
  | .num a => by simp [PValue.beq]
  | .bool a => by simp [PValue.beq]
  | .null => rfl
  | .arr xs => PValue.beqList_refl xs
  | .obj xs => PValue.beqFields_refl xs

theorem PValue.beqList_refl : ∀ (xs : List PValue), PValue.beqList xs xs = true
  | [] => rfl
  | x :: xs => by
      simp only [PValue.beqList, Bool.and_eq_true]
      exact ⟨PValue.beq_refl x, PValue.beqList_refl xs⟩

theorem PValue.beqFields_refl :
    ∀ (xs : List (String × PValue)), PValue.beqFields xs xs = true
  | [] => rfl
  | (k, v) :: xs => by
      simp only [PValue.beqFields, Bool.and_eq_true]
      exact ⟨⟨by simp, PValue.beq_refl v⟩, PValue.beqFields_refl xs⟩

end

instance : DecidableEq PValue := fun a b =>
  if h : PValue.beq a b = true then .isTrue (PValue.eq_of_beq h)
  else .isFalse (fun he => h (he ▸ PValue.beq_refl a))

/-- JavaScript truthiness of a defined value. -/
def truthy : PValue → Bool
  | .str s => s ≠ ""
  | .num n => n ≠ 0
  | .bool b => b
  | .null => false
  | .arr _ => true
  | .obj _ => true

/-- Truthiness of a possibly-`undefined` value (`undefined` is falsy). -/
def truthyOpt : Option PValue → Bool
  | none => false
  | some v => truthy v

/-- First binding of a key in an insertion-ordered object field list. -/
def lookupFirst (fields : List (String × PValue)) (k : String) : Option PValue :=
  match fields with
  | [] => none
  | (k2, v) :: rest => if k2 = k then some v else lookupFirst rest k

/-- JavaScript object assignment `o[k] = v`: replace the existing binding in
place, else append the key at the end (insertion order). -/
def objSet (fields : List (String × PValue)) (k : String) (v : PValue) :
    List (String × PValue) :=
  match fields with
  | [] => [(k, v)]
  | (k2, w) :: rest =>
    if k2 = k then (k2, v) :: rest else (k2, w) :: objSet rest k v

/-- Decimal rendering of a natural number, used for array index keys. -/
def natKey (n : Nat) : String := toString n

/-- `s.charAt(0) === c` for a single character. -/
def firstCharIs (s : String) (c : Char) : Bool :=
  match s.data with
  | [] => false
  | a :: _ => a == c

/-- Whether the last character of `s` is `c`. -/
def lastCharIs (s : String) (c : Char) : Bool :=
  match s.data.getLast? with
  | some a => a == c
  | none => false

/-- `s.split('.')` on the underlying character list. -/
def splitCharsOnDot : List Char → List (List Char)
  | [] => [[]]
  | c :: rest =>
    let r := splitCharsOnDot rest
    if c == '.' then [] :: r
    else
      match r with
      | [] => [[c]]
      | g :: gs => (c :: g) :: gs

/-- `path.split('.')` as JavaScript and lodash perform it. -/
def splitPathDots (s : String) : List String :=
  (splitCharsOnDot s.data).map (fun cs => String.mk cs)

/-- Parse a decimal numeral. -/
def parseDecimal (s : String) : Option Nat :=
  if s.data.isEmpty then none
  else if s.data.all (fun c => 48 ≤ c.toNat && c.toNat ≤ 57) then
    some (s.data.foldl (fun acc c => acc * 10 + (c.toNat - 48)) 0)
  else none

/-- Parse a string as a canonical decimal array index (as JavaScript coerces
index strings when reading `arr[k]`). -/
def parseIndex (s : String) : Option Nat :=
  match parseDecimal s with
  | some n => if natKey n = s then some n else none
  | none => none

/-- `Object.keys(v)`: field names of an object, index strings of an array or
string, `[]` for other primitives. -/
def jsKeys : PValue → List String
  | .obj fields => fields.map Prod.fst
  | .arr xs => (List.range xs.length).map natKey
  | .str s => (List.range s.length).map natKey
  | _ => []

/-- Property read `v[k]` on a defined value (`undefined` when absent; numbers
and booleans have no own properties). -/
def jsMemberPrim : PValue → String → Option PValue
  | .obj fields, k => lookupFirst fields k
  | .arr xs, k => match parseIndex k with
    | some i => xs.get? i
    | none => none
  | .str s, k => match parseIndex k with
    | some i => (s.data.get? i).map (fun c => .str (String.singleton c))
    | none => none
  | _, _ => none

/-- Property read on a possibly-`undefined` value: JavaScript throws a
`TypeError` when reading a property of `undefined` or `null`. -/
def jsIndex : Option PValue → String → Except String (Option PValue)
  | none, _ => .error "TypeError: cannot read property of undefined"
  | some .null, _ => .error "TypeError: cannot read property of null"
  | some v, k => .ok (jsMemberPrim v k)

/-- `for (const x of v)`: arrays iterate their elements, strings their
characters; everything else raises a `TypeError`. -/
def jsIterate : Option PValue → Except String (List PValue)
  | some (.arr xs) => .ok xs
  | some (.str s) => .ok (s.data.map (fun c => .str (String.singleton c)))
  | _ => .error "TypeError: value is not iterable"

/-- The own enumerable fields `Object.assign({}, v)` would copy. -/
def jsAssignFields : PValue → List (String × PValue)
  | .obj fields => fields
  | .arr xs => xs.enum.map (fun p => (natKey p.1, p.2))
  | .str s => s.data.enum.map (fun p => (natKey p.1, .str (String.singleton p.2)))
  | _ => []

/-- lodash `get` along an already-split dot path (safe on `undefined`). -/
def getPath : Option PValue → List String → Option PValue
  | v, [] => v
  | none, _ :: _ => none
  | some v, k :: rest => getPath (jsMemberPrim v k) rest

/-- lodash `get(value, path)` with a dot-separated string path. -/
def lodashGet (v : Option PValue) (path : String) : Option PValue :=
  getPath v (splitPathDots path)

/-- `IDisplayOptions`: the `show` / `hide` rule maps.  Each rule maps a
property name (possibly `/`-prefixed for a root-relative reference) to its
list of accepted values.  `Object.keys` iterates `show` before `hide`, in
insertion order, which the list order models. -/
structure DisplayOptions : Type where
  showRules : Option (List (String × List PValue))
  hideRules : Option (List (String × List PValue))
deriving Repr

/-- `typeOptions` (only `multipleValues` is read by this module; the outer
`Option` models an absent `typeOptions` object and the inner one an absent
`multipleValues` key). -/
structure TypeOptions : Type where
  multipleValues : Option Bool
deriving Repr

mutual

/-- `INodeProperties`: one field schema.  `options` holds either nested
`INodeProperties` (for `collection` / enumerated `options` fields) or
`INodePropertyCollection` named groups (for `fixedCollection`); the
TypeScript union type is modelled by `PropOrCollection`. -/
inductive INodeProperties : Type where
  | mk (name : String) (displayName : String) (type : String)
       (defaultValue : PValue) (required : Bool)
       (displayOptions : Option DisplayOptions) (typeOptions : Option TypeOptions)
       (options : Option (List PropOrCollection))

/-- One entry of an `options` array: a plain property, or an
`INodePropertyCollection` (`{name, displayName, values}`). -/
inductive PropOrCollection : Type where
  | prop (p : INodeProperties)
  | collection (name : String) (values : List INodeProperties)

end

def INodeProperties.name : INodeProperties → String
  | .mk n _ _ _ _ _ _ _ => n

def INodeProperties.displayName : INodeProperties → String
  | .mk _ dn _ _ _ _ _ _ => dn

def INodeProperties.type : INodeProperties → String
  | .mk _ _ ty _ _ _ _ _ => ty

def INodeProperties.defaultValue : INodeProperties → PValue
  | .mk _ _ _ dv _ _ _ _ => dv

def INodeProperties.required : INodeProperties → Bool
  | .mk _ _ _ _ rq _ _ _ => rq

def INodeProperties.displayOptions : INodeProperties → Option DisplayOptions
  | .mk _ _ _ _ _ dO _ _ => dO

def INodeProperties.typeOptions : INodeProperties → Option TypeOptions
  | .mk _ _ _ _ _ _ tO _ => tO

def INodeProperties.options : INodeProperties → Option (List PropOrCollection)
  | .mk _ _ _ _ _ _ _ os => os

/-- The `.name` of an `options` entry (`find` in the fixedCollection branches
compares it for both entry shapes). -/
def PropOrCollection.entryName : PropOrCollection → String
  | .prop p => p.name
  | .collection n _ => n

/-- `typeOptions !== undefined && typeOptions.multipleValues === true`. -/
def INodeProperties.multipleValuesTrue (p : INodeProperties) : Bool :=
  match p.typeOptions with
  | some tO => match tO.multipleValues with
    | some b => b
    | none => false
  | none => false

/-- A value is a string whose first character is the expression escape
marker: `typeof v === 'string' && v.charAt(0) === '='`. -/
def isEscapeValue : Option PValue → Bool
  | some (.str s) => firstCharIs s (Char.ofNat 61)
  | _ => false

/-- Resolve a `show`/`hide` key against the current level (or the root for a
`/`-prefixed key) and normalize to a list: wrap a non-array (possibly
`undefined`) value, flatten an array one level (lines 284-297 / 312-325). -/
def resolvedConditionValues (nodeValues nodeValuesRoot : Option PValue)
    (propertyName : String) : List (Option PValue) :=
  let value :=
    if firstCharIs propertyName (Char.ofNat 47) then
      lodashGet nodeValuesRoot (propertyName.drop 1)
    else lodashGet nodeValues propertyName
  match value with
  | some (.arr xs) => xs.map some
  | v => [v]

/-- Whether a `show` key passes its membership test: resolved list non-empty
and intersecting the accepted set (line 303, negated). -/
def showKeyPasses (nodeValues nodeValuesRoot : Option PValue)
    (propertyName : String) (accepted : List PValue) : Bool :=
  let values := resolvedConditionValues nodeValues nodeValuesRoot propertyName
  !values.isEmpty && accepted.any (fun v => values.contains (some v))

/-- Whether some value resolved for a `show` key is an escape string
(line 299). -/
def showKeyEscapes (nodeValues nodeValuesRoot : Option PValue)
    (propertyName : String) : Bool :=
  (resolvedConditionValues nodeValues nodeValuesRoot propertyName).any isEscapeValue

/-- The `show` loop (lines 283-306): `some true` models the early
`return true` on an escape value, `some false` the early `return false` on a
failing key, `none` falling through to the `hide` rules. -/
def runShowRules (nodeValues nodeValuesRoot : Option PValue) :
    List (String × List PValue) → Option Bool
  | [] => none
  | (propertyName, accepted) :: rest =>
    if showKeyEscapes nodeValues nodeValuesRoot propertyName then some true
    else if !showKeyPasses nodeValues nodeValuesRoot propertyName accepted then
      some false
    else runShowRules nodeValues nodeValuesRoot rest

/-- The `hide` loop (lines 311-330): `false` as soon as a key's non-empty
resolved list intersects its hide set. -/
def runHideRules (nodeValues nodeValuesRoot : Option PValue) :
    List (String × List PValue) → Bool
  | [] => true
  | (propertyName, accepted) :: rest =>
    let values := resolvedConditionValues nodeValues nodeValuesRoot propertyName
    if !values.isEmpty && accepted.any (fun v => values.contains (some v)) then false
    else runHideRules nodeValues nodeValuesRoot rest

/-- Core of `displayParameter` after the `nodeValuesRoot || nodeValues`
defaulting.  `nodeValues` is `Option` because `displayParameterPath` can hand
in an unresolved (`undefined`) subtree, on which lodash `get` is safe. -/
def displayParameterCore (nodeValues : Option PValue) (parameter : INodeProperties)
    (nodeValuesRoot : Option PValue) : Bool :=
  match parameter.displayOptions with
  | none => true
  | some dOpts =>
    let root := if truthyOpt nodeValuesRoot then nodeValuesRoot else nodeValues
    let afterShow : Option Bool :=
      match dOpts.showRules with
      | none => none
      | some rules => runShowRules nodeValues root rules
    match afterShow with
    | some b => b
    | none =>
      match dOpts.hideRules with
      | none => true
      | some rules => runHideRules nodeValues root rules

/-- `displayParameter(nodeValues, parameter, nodeValuesRoot?)`
(NodeHelpers.ts lines 272-334). -/
def displayParameter (nodeValues : PValue) (parameter : INodeProperties)
    (nodeValuesRoot : Option PValue) : Bool :=
  displayParameterCore (some nodeValues) parameter nodeValuesRoot

/-- `displayParameterPath(nodeValues, parameter, path)` (lines 348-367):
resolve the sub-tree by path, recompute the root when the path starts at the
reserved `parameters` sub-tree, then delegate. -/
def displayParameterPath (nodeValues : PValue) (parameter : INodeProperties)
    (path : String) : Bool :=
  let resolvedNodeValues : Option PValue :=
    if path ≠ "" then lodashGet (some nodeValues) path else some nodeValues
  let nodeValuesRoot : Option PValue :=
    if path ≠ "" ∧ (splitPathDots path).head? = some "parameters" then
      lodashGet (some nodeValues) "parameters"
    else some nodeValues
  displayParameterCore resolvedNodeValues parameter nodeValuesRoot

/-- Ordered string-list map used for `IParameterDependencies`. -/
def depsLookup (deps : List (String × List String)) (k : String) :
    Option (List String) :=
  match deps with
  | [] => none
  | (k2, v) :: rest => if k2 = k then some v else depsLookup rest k

/-- Update an entry of a dependencies map in place. -/
def depsSet (deps : List (String × List String)) (k : String) (v : List String) :
    List (String × List String) :=
  match deps with
  | [] => [(k, v)]
  | (k2, w) :: rest =>
    if k2 = k then (k2, v) :: rest else (k2, w) :: depsSet rest k v

/-- The parameter names mentioned by one property's display rules, iterating
the rule objects (`show` then `hide`) as `Object.keys` does. -/
def displayRuleKeys (dOpts : DisplayOptions) : List String :=
  (match dOpts.showRules with
   | some rules => rules.map Prod.fst
   | none => []) ++
  (match dOpts.hideRules with
   | some rules => rules.map Prod.fst
   | none => [])

/-- Append the names to the property's dependency list, skipping ones
already present (lines 426-433). -/
def addDependencies (existing : List String) : List String → List String
  | [] => existing
  | parameterName :: rest =>
    if existing.contains parameterName then addDependencies existing rest
    else addDependencies (existing ++ [parameterName]) rest

/-- `getParamterDependencies(nodePropertiesArray)` (lines 412-437): map each
property name to the names its display rules depend on.  Properties sharing
one name merge into a single entry. -/
def getParamterDependencies (nodePropertiesArray : List INodeProperties) :
    List (String × List String) :=
  nodePropertiesArray.foldl
    (fun dependencies nodeProperties =>
      let dependencies :=
        match depsLookup dependencies nodeProperties.name with
        | some _ => dependencies
        | none => dependencies ++ [(nodeProperties.name, [])]
      match nodeProperties.displayOptions with
      | none => dependencies
      | some dOpts =>
        let existing := (depsLookup dependencies nodeProperties.name).getD []
        depsSet dependencies nodeProperties.name
          (addDependencies existing (displayRuleKeys dOpts)))
    []

/-- One copy of `index` requeued per still-missing non-root dependency
(each failing dependency runs `indexToResolve.push(index)`, lines 476-487). -/
def requeueCopies (resolvedParamters : List String) (propDeps : List String)
    (index : Nat) : List Nat :=
  propDeps.foldl
    (fun acc dependency =>
      if resolvedParamters.contains dependency then acc
      else if firstCharIs dependency (Char.ofNat 47) then acc
      else acc ++ [index])
    []

/-- The `while` loop of `getParamterResolveOrder` (lines 462-501), with
explicit fuel.  State: queue of indices, output order, resolved names, last
queue length, iteration of the last queue-length reduction (starts at `-1`),
iteration counter.  The loop provably terminates on every input; the fuel
passed by `getParamterResolveOrder` is ample, and running out is reported as
a distinct error never produced with that fuel. -/
def resolveOrderLoop (nodePropertiesArray : List INodeProperties)
    (parameterDependencies : List (String × List String)) :
    Nat → List Nat → List Nat → List String → Nat → Int → Nat →
    Except String (List Nat)
  | 0, _, _, _, _, _, _ => .error "internal: resolve-order fuel exhausted"
  | _ + 1, [], executionOrder, _, _, _, _ => .ok executionOrder
  | fuel + 1, index :: restQueue, executionOrder, resolvedParamters,
      lastIndexLength, lastIndexReduction, itterations =>
    let itterations := itterations + 1
    match nodePropertiesArray.get? index with
    | none => .error "internal: index out of range"
    | some property =>
      match depsLookup parameterDependencies property.name with
      | none => .error "TypeError: dependencies of property are undefined"
      | some propDeps =>
        if propDeps.isEmpty then
          -- no dependencies: append and `continue` (skips the length checks)
          resolveOrderLoop nodePropertiesArray parameterDependencies fuel
            restQueue (executionOrder ++ [index])
            (resolvedParamters ++ [property.name])
            lastIndexLength lastIndexReduction itterations
        else
          let indexToResolve :=
            restQueue ++ requeueCopies resolvedParamters propDeps index
          -- the inner `continue` only skips to the next dependency, so the
          -- index is appended and marked resolved even when it was requeued
          let executionOrder := executionOrder ++ [index]
          let resolvedParamters := resolvedParamters ++ [property.name]
          let lastIndexReduction :=
            if indexToResolve.length < lastIndexLength then (itterations : Int)
            else lastIndexReduction
          if (itterations : Int) >
              lastIndexReduction + (nodePropertiesArray.length : Int) then
            .error "Could not resolve parameter depenencies. Max itterations got reached!"
          else
            resolveOrderLoop nodePropertiesArray parameterDependencies fuel
              indexToResolve executionOrder resolvedParamters
              indexToResolve.length lastIndexReduction itterations

/-- Ample fuel for `resolveOrderLoop`: the loop performs at most
`n` no-dependency iterations plus, between any two queue-length reductions,
at most `n + 1` checked iterations, with at most `n + totalDeps * n`
reductions possible; this bound dominates all of that. -/
def resolveOrderFuel (nodePropertiesArray : List INodeProperties)
    (parameterDependencies : List (String × List String)) : Nat :=
  let n := nodePropertiesArray.length
  let totalDeps :=
    parameterDependencies.foldl (fun acc e => acc + e.2.length) 0
  (n + 2) * (n + 2) * (totalDeps + 2)

/-- `getParamterResolveOrder(nodePropertiesArray, parameterDependencies)`
(lines 449-504). -/
def getParamterResolveOrder (nodePropertiesArray : List INodeProperties)
    (parameterDependencies : List (String × List String)) :
    Except String (List Nat) :=
  resolveOrderLoop nodePropertiesArray parameterDependencies
    (resolveOrderFuel nodePropertiesArray parameterDependencies)
    (List.range nodePropertiesArray.length) [] []
    nodePropertiesArray.length (-1) 0

/-- Type of the recursive `getNodeParameters` callback threaded into the
per-property processing (the fuel step is already applied). -/
def RecurT : Type :=
  List INodeProperties → Option PValue → Bool → Bool → Bool → Bool →
  Option PValue → Option String → Except String (Option PValue)

/-- Left fold with short-circuiting errors (the `for` loops of the source,
where a thrown error aborts the whole call). -/
def runFold {σ α : Type} (step : σ → α → Except String σ) :
    List α → σ → Except String σ
  | [], st => .ok st
  | a :: rest, st =>
    match step st a with
    | .error e => .error e
    | .ok st2 => runFold step rest st2

/-- Names occurring more than once in the schema list (lines 528-538). -/
def duplicateParameterNamesOf (nodePropertiesArray : List INodeProperties) :
    List String :=
  (nodePropertiesArray.foldl
    (fun acc nodeProperties =>
      if acc.2.contains nodeProperties.name then
        if acc.1.contains nodeProperties.name then acc
        else (acc.1 ++ [nodeProperties.name], acc.2)
      else (acc.1, acc.2 ++ [nodeProperties.name]))
    ([], [])).1

/-- Scalar value under `returnDefaults` (lines 578-587): boolean, number and
options keep any defined value (`false`/`0` included); other subtypes use
JavaScript `nodeValues[name] || default`, replacing every falsy value. -/
def scalarDefaultedValue (nodeProperties : INodeProperties) (v : Option PValue) :
    PValue :=
  if ["boolean", "number", "options"].contains nodeProperties.type then
    v.getD nodeProperties.defaultValue
  else
    match v with
    | some w => if truthy w then w else nodeProperties.defaultValue
    | none => nodeProperties.defaultValue

/-- `typeof v === 'object'` (`null`, arrays and objects; `undefined` is not
an object). -/
def typeofIsObject : Option PValue → Bool
  | some (.obj _) => true
  | some (.arr _) => true
  | some .null => true
  | _ => false

/-- The condition of lines 588-590 deciding whether a non-default scalar
value is emitted when `returnDefaults` is off.  `!==` compares primitives by
value; the object leg uses lodash `isEqual` (structural). -/
def setWithoutDefault (nodeProperties : INodeProperties) (v : Option PValue)
    (parentType : Option String) : Bool :=
  (!typeofIsObject v &&
    (match v with
     | none => true
     | some w => !(PValue.beq w nodeProperties.defaultValue))) ||
  (typeofIsObject v &&
    (match v with
     | some w => !(PValue.beq w nodeProperties.defaultValue)
     | none => false)) ||
  (v.isSome && parentType == some "collection")

/-- `options.find(o => o.name === itemName)` with the `options!` non-null
assertion (a missing `options` array is a runtime `TypeError`). -/
def findOptionEntry (options : Option (List PropOrCollection))
    (itemName : String) : Except String (Option PropOrCollection) :=
  match options with
  | none => .error "TypeError: cannot read properties of undefined"
  | some entries => .ok (entries.find? (fun e => e.entryName == itemName))

/-- `(option as INodePropertyCollection).values!`: iterating the `values` of
an entry that is not a property collection dereferences `undefined`. -/
def entryValues : PropOrCollection → Except String (List INodeProperties)
  | .collection _ values => .ok values
  | .prop _ => .error "TypeError: entry has no values array"

/-- `nodeProperties.options as INodeProperties[]` for the collection branch.
A well-formed `collection` schema stores plain properties here; an
`INodePropertyCollection` entry miscast by the TypeScript `as` would behave
as a property with all fields beyond `name` undefined, which the model
renders with neutral values. -/
def collectionSubProperties :
    Option (List PropOrCollection) → Except String (List INodeProperties)
  | none => .error "TypeError: options is undefined"
  | some entries => .ok (entries.map (fun e =>
      match e with
      | .prop p => p
      | .collection n _ => INodeProperties.mk n n "" .null false none none none))

/-- One element of a multi-value fixedCollection group (lines 662-674):
look up the group schema (unknown names throw), recurse, and collect
non-null results. -/
def fcElemStep (recur : RecurT) (nodeProperties : INodeProperties)
    (itemName : String) (returnDefaults returnNoneDisplayed : Bool)
    (rootCur : PValue) (acc : List PValue) (nodeValue : PValue) :
    Except String (List PValue) := do
  let entry? ← findOptionEntry nodeProperties.options itemName
  match entry? with
  | none =>
    .error ("Could not find property option \"" ++ itemName ++ "\" for \"" ++
      nodeProperties.name ++ "\"")
  | some entry => do
    let tempNodePropertiesArray ← entryValues entry
    let tempValue ← recur tempNodePropertiesArray (some nodeValue)
      returnDefaults returnNoneDisplayed false false (some rootCur)
      (some nodeProperties.type)
    match tempValue with
    | some t => .ok (acc ++ [t])
    | none => .ok acc

/-- One alternative group of a fixedCollection (lines 656-695).  The
multi-value branch iterates `propertyValues[itemName]`; the single branch
re-reads `nodeValues[name][itemName]` (so an absent user value with a
non-empty object default raises a `TypeError`), silently skips unknown
group names, and keeps only non-empty recursive results. -/
def fcItemStep (recur : RecurT) (nodeProperties : INodeProperties)
    (nodeValues propertyValues : Option PValue)
    (returnDefaults returnNoneDisplayed : Bool) (rootCur : PValue)
    (collectionValues : List (String × PValue)) (itemName : String) :
    Except String (List (String × PValue)) :=
  if nodeProperties.multipleValuesTrue then do
    let elems ← jsIterate (jsMemberPrim (propertyValues.getD (.obj [])) itemName)
    let tempArrayValue ← runFold
      (fcElemStep recur nodeProperties itemName returnDefaults
        returnNoneDisplayed rootCur) elems []
    .ok (objSet collectionValues itemName (.arr tempArrayValue))
  else do
    let entry? ← findOptionEntry nodeProperties.options itemName
    match entry? with
    | none => .ok collectionValues
    | some entry => do
      let tempNodePropertiesArray ← entryValues entry
      let base ← jsIndex nodeValues nodeProperties.name
      let innerVal ← jsIndex base itemName
      let tempValue ← recur tempNodePropertiesArray innerVal returnDefaults
        returnNoneDisplayed false false (some rootCur) (some nodeProperties.type)
      let tempNodeParameters :=
        match tempValue with
        | some t => jsAssignFields t
        | none => []
      if tempNodeParameters.isEmpty then .ok collectionValues
      else .ok (objSet collectionValues itemName (.obj tempNodeParameters))

/-- Processing of one property inside the `getNodeParameters` loop
(lines 553-715).  Returns `some value` when the iteration assigns
`nodeParameters[name] = nodeParametersFull[name] = value`, `none` when it
assigns nothing (`continue`), and an error for a thrown exception. -/
def emitProp (recur : RecurT) (duplicateParameterNames : List String)
    (nodeValues : Option PValue)
    (returnDefaults returnNoneDisplayed onlySimpleTypes : Bool)
    (displayCheckCur rootCur : PValue) (parentType : Option String)
    (nodeProperties : INodeProperties) : Except String (Option PValue) := do
  let v ← jsIndex nodeValues nodeProperties.name
  if v.isNone && (!returnDefaults || parentType == some "collection") then
    .ok none
  else if !returnNoneDisplayed &&
      !displayParameter displayCheckCur nodeProperties (some rootCur) then
    .ok none
  else if !(["collection", "fixedCollection"].contains nodeProperties.type) then
    if duplicateParameterNames.contains nodeProperties.name &&
        !displayParameter displayCheckCur nodeProperties (some rootCur) then
      .ok none
    else if returnDefaults then .ok (some (scalarDefaultedValue nodeProperties v))
    else if setWithoutDefault nodeProperties v parentType then .ok v
    else .ok none
  else if onlySimpleTypes then .ok none
  else if nodeProperties.type == "collection" then
    if nodeProperties.multipleValuesTrue then
      match v with
      | some w => .ok (some w)
      | none =>
        if returnDefaults then
          -- JSON.parse(JSON.stringify(x)) deep clone is the value itself here
          match nodeProperties.defaultValue with
          | .arr xs => .ok (some (.arr xs))
          | _ => .ok (some (.arr []))
        else .ok none
    else
      match v with
      | some w => do
        let opts ← collectionSubProperties nodeProperties.options
        let tempNodeParameters ← recur opts (some w) returnDefaults
          returnNoneDisplayed false false (some rootCur)
          (some nodeProperties.type)
        match tempNodeParameters with
        | some t => .ok (some t)
        | none => .ok none
      | none =>
        if returnDefaults then .ok (some nodeProperties.defaultValue)
        else .ok none
  else if nodeProperties.type == "fixedCollection" then do
    let propertyValues : Option PValue :=
      if returnDefaults && v.isNone then some nodeProperties.defaultValue else v
    let keys :=
      match propertyValues with
      | some pv => if truthy pv then jsKeys pv else []
      | none => []
    let collectionValues ← runFold
      (fcItemStep recur nodeProperties nodeValues propertyValues
        returnDefaults returnNoneDisplayed rootCur) keys []
    if !collectionValues.isEmpty || returnDefaults then
      .ok (some (.obj collectionValues))
    else .ok none
  else .ok none

/-- One iteration of the resolve-order loop of `getNodeParameters`: the
visibility checks read the evolving `nodeParametersFull` object when no
fixed baseline was computed (`returnNoneDisplayed` mode), as does the
defaulted root.  Every source assignment writes the same value to both
`nodeParameters` and `nodeParametersFull`, which the paired state mirrors. -/
def gnpStep (recur : RecurT) (nodePropertiesArray : List INodeProperties)
    (duplicateParameterNames : List String) (nodeValues : Option PValue)
    (returnDefaults returnNoneDisplayed onlySimpleTypes : Bool)
    (displayCheckFixed rootFixed : Option PValue) (parentType : Option String)
    (st : List (String × PValue) × List (String × PValue))
    (parameterIndex : Nat) :
    Except String (List (String × PValue) × List (String × PValue)) :=
  match nodePropertiesArray.get? parameterIndex with
  | none => .error "internal: parameter index out of range"
  | some nodeProperties =>
    match emitProp recur duplicateParameterNames nodeValues returnDefaults
        returnNoneDisplayed onlySimpleTypes (displayCheckFixed.getD (.obj st.2))
        (rootFixed.getD (.obj st.2)) parentType nodeProperties with
    | .error e => .error e
    | .ok none => .ok st
    | .ok (some value) =>
      .ok (objSet st.1 nodeProperties.name value,
           objSet st.2 nodeProperties.name value)

/-- Fuel-indexed core of `getNodeParameters` returning the
`nodeParameters` field list.  The optional `parameterDependencies` argument
of the source is always `getParamterDependencies(nodePropertiesArray)` (the
only caller passing it passes exactly that), so the model recomputes it. -/
def gnpCore : Nat → List INodeProperties → Option PValue → Bool → Bool →
    Bool → Bool → Option PValue → Option String →
    Except String (List (String × PValue))
  | 0, _, _, _, _, _, _, _, _ => .error "internal: recursion fuel exhausted"
  | fuel + 1, nodePropertiesArray, nodeValues, returnDefaults,
      returnNoneDisplayed, onlySimpleTypes, dataIsResolved, nodeValuesRoot,
      parentType => do
    let recur : RecurT := fun ps nv rd rnd os dr root pt =>
      (gnpCore fuel ps nv rd rnd os dr root pt).map (fun fields =>
        some (.obj fields))
    let parameterDependencies := getParamterDependencies nodePropertiesArray
    let duplicateParameterNames := duplicateParameterNamesOf nodePropertiesArray
    -- lines 543-546: baseline tree for visibility checks
    let displayCheckFixed : Option PValue ←
      if !dataIsResolved && !returnNoneDisplayed then do
        let r ← recur nodePropertiesArray nodeValues true true true true
          nodeValuesRoot parentType
        match r with
        | some p => pure (some p)
        | none => Except.error "internal: baseline resolution returned null"
      else pure (none : Option PValue)
    -- line 548: nodeValuesRoot = nodeValuesRoot || nodeValuesDisplayCheck
    let rootFixed : Option PValue :=
      if truthyOpt nodeValuesRoot then nodeValuesRoot else displayCheckFixed
    let parameterItterationOrderIndex ←
      getParamterResolveOrder nodePropertiesArray parameterDependencies
    let st ← runFold
      (gnpStep recur nodePropertiesArray duplicateParameterNames nodeValues
        returnDefaults returnNoneDisplayed onlySimpleTypes displayCheckFixed
        rootFixed parentType) parameterItterationOrderIndex ([], [])
    pure st.1

/-- `getNodeParameters(...)` (lines 521-718), with explicit recursion fuel.
The declared return type is `INodeParameters | null`; the single `return`
statement always returns the `nodeParameters` object, modelled as
`some (.obj fields)`. -/
def getNodeParameters (fuel : Nat) (nodePropertiesArray : List INodeProperties)
    (nodeValues : Option PValue) (returnDefaults returnNoneDisplayed : Bool)
    (onlySimpleTypes dataIsResolved : Bool) (nodeValuesRoot : Option PValue)
    (parentType : Option String) : Except String (Option PValue) :=
  (gnpCore fuel nodePropertiesArray nodeValues returnDefaults
    returnNoneDisplayed onlySimpleTypes dataIsResolved nodeValuesRoot
    parentType).map (fun fields => some (.obj fields))

/-- `INodeIssues`.  The boolean flags model the `=== true` checks of
`mergeIssues` (`false` standing for an absent/false flag); the per-field
message maps are insertion-ordered, as JavaScript objects are. -/
structure INodeIssues : Type where
  execution : Bool
  typeUnknown : Bool
  parameters : Option (List (String × List String))
  credentials : Option (List (String × List String))
deriving Repr, DecidableEq

/-- Append messages under a field name: initialize the entry to `[]` when
missing (appending the key at the end), then `push.apply` the messages
(`mergeIssues` lines 1186-1193 and `addToIssuesIfMissing` lines 1017-1024). -/
def addIssueMessages (dst : List (String × List String)) (k : String)
    (msgs : List String) : List (String × List String) :=
  match dst with
  | [] => [(k, msgs)]
  | (k2, m) :: rest =>
    if k2 = k then (k2, m ++ msgs) :: rest
    else (k2, m) :: addIssueMessages rest k msgs

/-- Merge one object property of a source issue tree into the destination:
concatenate (never deduplicate) the per-field message lists. -/
def mergeObjectProperty (dst src : List (String × List String)) :
    List (String × List String) :=
  src.foldl (fun d e => addIssueMessages d e.1 e.2) dst

/-- One `objectProperties` entry of `mergeIssues` (lines 1180-1195): when
the source holds the property, initialize an absent destination map to `{}`
and merge; otherwise leave the destination untouched. -/
def mergeIssueProperty (d s : Option (List (String × List String))) :
    Option (List (String × List String)) :=
  match s with
  | none => d
  | some sp => some (mergeObjectProperty (d.getD []) sp)

/-- `mergeIssues(destination, source)` (lines 1164-1200), as a pure function
returning the updated destination. -/
def mergeIssues (destination : INodeIssues) (source : Option INodeIssues) :
    INodeIssues :=
  match source with
  | none => destination
  | some src =>
    { execution := destination.execution || src.execution
      typeUnknown := destination.typeUnknown || src.typeUnknown
      parameters := mergeIssueProperty destination.parameters src.parameters
      credentials := mergeIssueProperty destination.credentials src.credentials }

/-- The empty issue tree `{}`. -/
def noIssues : INodeIssues := ⟨false, false, none, none⟩

/-- `addToIssuesIfMissing(foundIssues, nodeProperties, value)`
(lines 1011-1026). -/
def addToIssuesIfMissing (foundIssues : INodeIssues)
    (nodeProperties : INodeProperties) (value : Option PValue) : INodeIssues :=
  let missing :=
    (nodeProperties.type == "string" &&
      (value == some (.str "") || value == none)) ||
    (nodeProperties.type == "multiOptions" &&
      (match value with
       | some (.arr xs) => xs.isEmpty
       | _ => false)) ||
    (nodeProperties.type == "dateTime" && value == none)
  if missing then
    { foundIssues with
      parameters := some (addIssueMessages (foundIssues.parameters.getD [])
        nodeProperties.name
        ["Parameter \"" ++ nodeProperties.displayName ++ "\" is required."]) }
  else foundIssues

/-- `getParameterValueByPath(nodeValues, parameterName, path)`
(lines 1038-1043). -/
def getParameterValueByPath (nodeValues : PValue) (parameterName path : String) :
    Option PValue :=
  lodashGet (some nodeValues)
    (if path ≠ "" then path ++ "." ++ parameterName else parameterName)

/-- An `options` entry cast to `INodeProperties` by the collection child
check (line 1101-1105): a miscast `INodePropertyCollection` has only its
`name`; every other field reads as undefined, rendered neutrally. -/
def optionAsProperty : PropOrCollection → INodeProperties
  | .prop p => p
  | .collection n _ => .mk n n "" .null false none none none

/-- `typeOptions !== undefined && typeOptions.multipleValues !== undefined`
(lines 1064 and 1118; note: present-but-`false` counts as multiple here). -/
def multipleValuesDefined (nodeProperties : INodeProperties) : Bool :=
  match nodeProperties.typeOptions with
  | some tO => tO.multipleValues.isSome
  | none => false

/-- Child properties to check for a `fixedCollection` (lines 1110-1139):
skip alternatives with no supplied value; one synthetic indexed path per
array element in the multi-value form. -/
def fixedCollectionChildChecks (nodeProperties : INodeProperties)
    (nodeValues : PValue) (basePath : String) :
    Except String (List (String × INodeProperties)) :=
  match nodeProperties.options with
  | none => .ok []
  | some entries =>
    runFold
      (fun acc e => do
        let value := getParameterValueByPath nodeValues e.entryName
          (basePath.dropRight 1)
        if value == none then .ok acc
        else if multipleValuesDefined nodeProperties then
          match value with
          | some (.arr xs) => do
            let vs ← entryValues e
            .ok (acc ++ ((List.range xs.length).map (fun i =>
              vs.map (fun option =>
                (basePath ++ e.entryName ++ "[" ++ natKey i ++ "]", option)))).flatten)
          | _ => .ok acc
        else do
          let vs ← entryValues e
          .ok (acc ++ vs.map (fun option => (basePath ++ e.entryName, option))))
      entries []

/-- `getParameterIssues(nodeProperties, nodeValues, path)` (lines 1056-1153),
with explicit recursion fuel.  The fixedCollection base path reproduces the
source expression `basePath ? basePath + '.' : '' + name + '.'` with the
ternary binding tighter than the trailing concatenation. -/
def getParameterIssues : Nat → INodeProperties → PValue → String →
    Except String INodeIssues
  | 0, _, _, _ => .error "internal: recursion fuel exhausted"
  | fuel + 1, nodeProperties, nodeValues, path => do
    let foundIssues : INodeIssues :=
      if nodeProperties.required then
        if displayParameterPath nodeValues nodeProperties path then
          let value := getParameterValueByPath nodeValues nodeProperties.name path
          if multipleValuesDefined nodeProperties then
            match value with
            | some (.arr xs) =>
              xs.foldl (fun issues singleValue =>
                addToIssuesIfMissing issues nodeProperties (some singleValue))
                noIssues
            | _ => noIssues
          else addToIssuesIfMissing noIssues nodeProperties value
        else noIssues
      else noIssues
    match nodeProperties.options with
    | none => .ok foundIssues
    | some entries => do
      let basePath := if path ≠ "" then path ++ "." else ""
      let checks ←
        if nodeProperties.type == "collection" then
          .ok (entries.map (fun e => (basePath, optionAsProperty e)))
        else if nodeProperties.type == "fixedCollection" then
          fixedCollectionChildChecks nodeProperties nodeValues
            (if basePath ≠ "" then basePath ++ "." else nodeProperties.name ++ ".")
        else .ok []
      runFold
        (fun acc bd => do
          let propertyIssues ← getParameterIssues fuel bd.2 nodeValues bd.1
          .ok (mergeIssues acc (some propertyIssues)))
        checks foundIssues

/-- The fields of `INode` read by the webhook path functions. -/
structure INode : Type where
  name : String
  webhookId : Option String
deriving Repr

/-- The slash trimming `getNodeWebhooks` applies to the resolved raw path
before composing (lines 779-784): one leading and one trailing slash. -/
def trimWebhookPath (nodeWebhookPath : String) : String :=
  let p :=
    if firstCharIs nodeWebhookPath (Char.ofNat 47) then nodeWebhookPath.drop 1
    else nodeWebhookPath
  if lastCharIs p (Char.ofNat 47) then p.dropRight 1 else p

/-- ASCII lowering of one character. -/
def jsCharToLower (c : Char) : Char :=
  if 65 ≤ c.toNat && c.toNat ≤ 90 then Char.ofNat (c.toNat + 32) else c

/-- JavaScript `String.prototype.toLowerCase` (ASCII-faithful). -/
def jsToLowerCase (s : String) : String := String.mk (s.data.map jsCharToLower)

/-- Characters `encodeURIComponent` leaves unescaped. -/
def uriUnreserved (c : Char) : Bool :=
  c.isAlphanum || c == '-' || c == '_' || c == '.' || c == '!' || c == '~' ||
  c == '*' || c == Char.ofNat 39 || c == '(' || c == ')'

/-- Uppercase hexadecimal digit. -/
def hexDigit (n : Nat) : Char :=
  if n < 10 then Char.ofNat (48 + n) else Char.ofNat (55 + n)

/-- `%XX` escape of one byte. -/
def byteHex (b : Nat) : String :=
  String.mk [Char.ofNat 37, hexDigit (b / 16), hexDigit (b % 16)]

/-- UTF-8 bytes of one code point. -/
def utf8Bytes (c : Char) : List Nat :=
  let n := c.toNat
  if n < 128 then [n]
  else if n < 2048 then [192 + n / 64, 128 + n % 64]
  else if n < 65536 then [224 + n / 4096, 128 + (n / 64) % 64, 128 + n % 64]
  else [240 + n / 262144, 128 + (n / 4096) % 64, 128 + (n / 64) % 64,
    128 + n % 64]

/-- `encodeURIComponent`. -/
def encodeURIComponent (s : String) : String :=
  s.data.foldl
    (fun acc c =>
      if uriUnreserved c then acc ++ String.singleton c
      else acc ++ String.join ((utf8Bytes c).map byteHex))
    ""

/-- `getNodeWebhookPath(workflowId, node, path, isFullPath?, restartWebhook?)`
(lines 891-904). -/
def getNodeWebhookPath (workflowId : String) (node : INode) (path : String)
    (isFullPath : Option Bool) (restartWebhook : Option Bool) : String :=
  if restartWebhook == some true then path
  else
    match node.webhookId with
    | none =>
      workflowId ++ "/" ++ encodeURIComponent (jsToLowerCase node.name) ++
        "/" ++ path
    | some webhookId =>
      if isFullPath == some true then path
      else webhookId ++ "/" ++ path

/-- The final-webhook-path rule in the words of the specification: trim a
single leading and trailing slash from the resolved raw path; use the
trimmed path verbatim under `restartWebhook`; else, with a `webhookId`, use
it verbatim under `isFullPath` and prefix `webhookId/` otherwise; else
prefix `workflowId/` and the URL-encoded lowercased node name. -/
def webhookPathSpec (workflowId : String) (node : INode) (rawPath : String)
    (isFullPath restartWebhook : Option Bool) : String :=
  let path := trimWebhookPath rawPath
  if restartWebhook == some true then path
  else
    match node.webhookId with
    | some webhookId =>
      if isFullPath == some true then path else webhookId ++ "/" ++ path
    | none =>
      workflowId ++ "/" ++ encodeURIComponent (jsToLowerCase node.name) ++
        "/" ++ path

/-- No element repeats in a list of names. -/
def distinctNames : List String → Bool
  | [] => true
  | n :: rest => !rest.contains n && distinctNames rest

mutual

/-- Well-formedness used by the amended idempotence claim: no field of type
`collection` anywhere, and distinct field names at every nesting level. -/
def goodProp : INodeProperties → Bool
  | .mk _ _ ty _ _ _ _ opts =>
    ty != "collection" &&
    (match opts with
     | none => true
     | some entries => goodEntries entries)

def goodEntries : List PropOrCollection → Bool
  | [] => true
  | e :: rest => goodEntry e && goodEntries rest

def goodEntry : PropOrCollection → Bool
  | .prop p => goodProp p
  | .collection _ values =>
    distinctNames (values.map INodeProperties.name) && goodAll values

def goodAll : List INodeProperties → Bool
  | [] => true
  | p :: rest => goodProp p && goodAll rest

end

/-- Schema list admissible for the amended idempotence claim. -/
def goodSchema (nodePropertiesArray : List INodeProperties) : Bool :=
  distinctNames (nodePropertiesArray.map INodeProperties.name) &&
    goodAll nodePropertiesArray

/-- Field `B` with two `show` keys: `A` must be `x` and `B` must be `y`. -/
def c1Parameter : INodeProperties :=
  .mk "B" "B" "string" (.str "") false
    (some ⟨some [("A", [.str "x"]), ("B", [.str "y"])], none⟩) none none

/-- Values giving the first show key a plain failing value and the second an
escape-marked expression string. -/
def c1Values : PValue := .obj [("A", .str "z"), ("B", .str "=expr()")]

/-- The specification's own example: field `B` shown when `A` is `x`. -/
def c1ExampleParameter : INodeProperties :=
  .mk "B" "B" "string" (.str "") false
    (some ⟨some [("A", [.str "x"])], none⟩) none none

/-- Acyclic two-field schema where field 0 (`B`) is gated on the later
field 1 (`A`). -/
def c2Props : List INodeProperties :=
  [.mk "B" "B" "string" (.str "") false
    (some ⟨some [("A", [.str "x"])], none⟩) none none,
   .mk "A" "A" "string" (.str "") false none none none]

/-- Two fields each gated on the other: a genuine dependency cycle. -/
def c3Props : List INodeProperties :=
  [.mk "A" "A" "string" (.str "") false
    (some ⟨some [("B", [.str "y"])], none⟩) none none,
   .mk "B" "B" "string" (.str "") false
    (some ⟨some [("A", [.str "x"])], none⟩) none none]

/-- `collection` field whose declared default `{b: 1}` holds a key that is
not a declared sub-field. -/
def c4Schema : List INodeProperties :=
  [.mk "col" "col" "collection" (.obj [("b", .num 1)]) false none none
    (some [.prop (.mk "a" "a" "string" (.str "d") false none none none)])]

/-- First resolution of `c4Schema` on the empty value tree: the default is
cloned through verbatim. -/
def c4FirstResult : PValue := .obj [("col", .obj [("b", .num 1)])]

/-- Second resolution: recursing into the clone with `parentType`
`collection` drops the undeclared key. -/
def c4SecondResult : PValue := .obj [("col", .obj [])]

/-- Non-multiple `fixedCollection` with a single declared group `g`. -/
def c5SingleProp : INodeProperties :=
  .mk "fc" "fc" "fixedCollection" (.obj []) false none none
    (some [.collection "g"
      [.mk "x" "x" "string" (.str "xd") false none none none]])

/-- Required string scalar schema used by the validation claim. -/
def requiredStringProp (name displayName : String) (dv : PValue)
    (dOpts : Option DisplayOptions) : INodeProperties :=
  .mk name displayName "string" dv true dOpts none none

/-- First binding of a field name in an issue message map. -/
def msgsLookup (l : List (String × List String)) (k : String) :
    Option (List String) :=
  match l with
  | [] => none
  | (k2, m) :: rest => if k2 = k then some m else msgsLookup rest k

/-- JavaScript objects cannot repeat keys; every issue tree the engine
builds satisfies this. -/
def wellFormedIssues (issues : INodeIssues) : Bool :=
  distinctNames ((issues.parameters.getD []).map Prod.fst) &&
  distinctNames ((issues.credentials.getD []).map Prod.fst)

def RecurRootInv (recur : RecurT) : Prop :=
  ∀ ps nv r1 r2 pt2, goodSchema ps = true →
    recur ps nv true true false false r1 pt2 =
      recur ps nv true true false false r2 pt2

def RecurObjShape (recur : RecurT) : Prop :=
  ∀ ps nv rd rnd os dr rt pt2 r,
    recur ps nv rd rnd os dr rt pt2 = Except.ok r →
    ∃ fs, r = some (PValue.obj fs)

def RecurIdem (recur : RecurT) : Prop :=
  ∀ ps nv rt pt2 fs, goodSchema ps = true →
    recur ps nv true true false false rt pt2 = Except.ok (some (.obj fs)) →
    recur ps (some (.obj fs)) true true false false rt pt2 =
      Except.ok (some (.obj fs))

def emitFixed (recur : RecurT) (nv : Option PValue) (pt : Option String)
    (prop : INodeProperties) : Except String (Option PValue) :=
  emitProp recur [] nv true true false (.obj []) (.obj []) pt prop

def gnpStepF (recur : RecurT) (props : List INodeProperties)
    (nv : Option PValue) (pt : Option String)
    (st : List (String × PValue) × List (String × PValue)) (i : Nat) :
    Except String (List (String × PValue) × List (String × PValue)) :=
  match props.get? i with
  | none => .error "internal: parameter index out of range"
  | some prop =>
    match emitFixed recur nv pt prop with
    | .error e => .error e
    | .ok none => .ok st
    | .ok (some value) =>
      .ok (objSet st.1 prop.name value, objSet st.2 prop.name value)

def ElemRep (recur : RecurT) (prop : INodeProperties) (g : String)
    (t : PValue) : Prop :=
  ∃ entry vs fs, findOptionEntry prop.options g = Except.ok (some entry) ∧
    entryValues entry = Except.ok vs ∧ goodSchema vs = true ∧
    t = PValue.obj fs ∧
    ∀ rc, recur vs (some t) true true false false (some rc)
      (some prop.type) = Except.ok (some t)

def Rebuildable (recur : RecurT) (prop : INodeProperties) (g : String)
    (w : PValue) : Prop :=
  (∃ ts, w = PValue.arr ts ∧ prop.multipleValuesTrue = true ∧
    ∀ t ∈ ts, ElemRep recur prop g t) ∨
  (∃ entry vs fs, findOptionEntry prop.options g = Except.ok (some entry) ∧
    entryValues entry = Except.ok vs ∧ goodSchema vs = true ∧
    w = PValue.obj fs ∧ prop.multipleValuesTrue = false ∧ fs ≠ [] ∧
    ∀ rc, recur vs (some w) true true false false (some rc)
      (some prop.type) = Except.ok (some w))

def c4wProps : List INodeProperties :=
  [.mk "a" "A" "string" (.str "d") false none none none,
   .mk "b" "B" "boolean" (.bool true) false none none none]

/-- C2: on the acyclic schema `c2Props` (`B` gated on `A`), the resolve
order is `[0, 1, 0]`: index 0 appears twice and its first occurrence
precedes its dependency `A` (index 1), because the inner `continue` of the
dependency scan only advances the dependency loop, after which the index is
unconditionally appended and marked resolved. -/
theorem C2_resolve_order_at_failing_input :
    getParamterResolveOrder c2Props (getParamterDependencies c2Props) =
      Except.ok [0, 1, 0] ∧ ¬ List.Nodup [0, 1, 0] := by
  exact ⟨rfl, by decide⟩

/-- C3: on the cyclic schema `c3Props` (each field gated on the other), the
function returns an order instead of throwing: every popped index is marked
resolved even while requeued, so the second pop of each field sees its
dependency "resolved" and the max-itterations error is never reached. -/
theorem C3_resolve_order_cycle_returns :
    getParamterResolveOrder c3Props (getParamterDependencies c3Props) =
      Except.ok [0, 1, 0] := rfl

/-- C4 counterexample: resolving `c4Schema` on the empty tree with
`returnDefaults` and `returnNoneDisplayed` yields `{col: {b: 1}}`, but
re-resolving that output yields `{col: {}}` — resolution with these flags is
not idempotent. -/
theorem C4_counterexample :
    getNodeParameters 5 c4Schema (some (.obj [])) true true false false
        none none = Except.ok (some c4FirstResult) ∧
    getNodeParameters 5 c4Schema (some c4FirstResult) true true false false
        none none = Except.ok (some c4SecondResult) ∧
    c4SecondResult ≠ c4FirstResult := by
  refine ⟨rfl, rfl, by decide⟩

/-- C5 counterexample: a non-multiple `fixedCollection` value naming an
alternative group (`bad`) absent from the declared options resolves without
any error — the unknown group is silently dropped (lines 681-693), so the
claim that an unknown name is fatal in both forms fails. -/
theorem C5_counterexample :
    getNodeParameters 5 [c5SingleProp]
      (some (.obj [("fc", .obj [("bad", .obj [("x", .str "v")])])]))
      true true false false none none =
      Except.ok (some (.obj [("fc", .obj [])])) := rfl

/-- C9: after the slash trimming of `getNodeWebhooks`, `getNodeWebhookPath`
composes the final path exactly as the specification describes
(restart ⇒ verbatim; webhookId ⇒ verbatim under full path, else
`webhookId/`-prefixed; else `workflowId/encoded-lowercased-name/`), and the
three concrete examples of the claim hold. -/
theorem C9_webhook_path :
    (∀ (workflowId : String) (node : INode) (rawPath : String)
       (isFullPath restartWebhook : Option Bool),
       getNodeWebhookPath workflowId node (trimWebhookPath rawPath)
         isFullPath restartWebhook =
       webhookPathSpec workflowId node rawPath isFullPath restartWebhook) ∧
    getNodeWebhookPath "wf1" ⟨"My Node", none⟩ (trimWebhookPath "/hook/")
      none none = "wf1/my%20node/hook" ∧
    getNodeWebhookPath "wf1" ⟨"My Node", some "abc"⟩ (trimWebhookPath "/hook/")
      (some false) none = "abc/hook" ∧
    getNodeWebhookPath "wf1" ⟨"My Node", some "abc"⟩ (trimWebhookPath "/hook/")
      none (some true) = "hook" := by
  refine ⟨?_, rfl, rfl, rfl⟩
  intro workflowId node rawPath isFullPath restartWebhook
  cases node with
  | mk name webhookId => cases webhookId <;> rfl

/-- C10: `getNodeParameters` never produces the `null` its declared return
type admits: every successful result is an object (the single `return`
statement returns `nodeParameters`), so the internal `tempValue !== null`
guards on recursive results always hold. -/
theorem C10_getNodeParameters_never_null (fuel : Nat)
    (nodePropertiesArray : List INodeProperties) (nodeValues : Option PValue)
    (returnDefaults returnNoneDisplayed onlySimpleTypes dataIsResolved : Bool)
    (nodeValuesRoot : Option PValue) (parentType : Option String)
    (r : Option PValue)
    (h : getNodeParameters fuel nodePropertiesArray nodeValues returnDefaults
      returnNoneDisplayed onlySimpleTypes dataIsResolved nodeValuesRoot
      parentType = Except.ok r) :
    ∃ fields, r = some (PValue.obj fields) := by
  unfold getNodeParameters at h
  cases hc : gnpCore fuel nodePropertiesArray nodeValues returnDefaults
      returnNoneDisplayed onlySimpleTypes dataIsResolved nodeValuesRoot
      parentType with
  | error e => rw [hc] at h; exact absurd h (by simp [Except.map])
  | ok fields =>
    rw [hc] at h
    simp [Except.map] at h
    exact ⟨fields, h.symm⟩

/-- Witness for C10 at a concrete input. -/
theorem C10_witness :
    ∃ fields, (some (PValue.obj []) : Option PValue) =
      some (PValue.obj fields) :=
  C10_getNodeParameters_never_null 1 [] (some (.obj [])) true true false
    false none none (some (.obj [])) rfl

/-- If every `show` key listed before `k` passes its membership test or
itself resolves to an escape value, and `k` resolves to an escape value,
the show loop returns `some true` (the function-wide early `return true`). -/
theorem runShowRules_escape_prefix (nv rt : Option PValue) :
    ∀ (pre : List (String × List PValue)) (k : String)
      (accepted : List PValue) (post : List (String × List PValue)),
      (∀ e ∈ pre, showKeyPasses nv rt e.1 e.2 = true ∨
        showKeyEscapes nv rt e.1 = true) →
      showKeyEscapes nv rt k = true →
      runShowRules nv rt (pre ++ (k, accepted) :: post) = some true
  | [], k, accepted, post, _, hesc => by
      simp [runShowRules, hesc]
  | (k1, a1) :: pre, k, accepted, post, hpre, hesc => by
      by_cases h1 : showKeyEscapes nv rt k1 = true
      · simp [runShowRules, h1]
      · have hp : showKeyPasses nv rt k1 a1 = true := by
          rcases hpre (k1, a1) (List.mem_cons_self _ _) with hp | he
          · exact hp
          · exact absurd he h1
        have hrec := runShowRules_escape_prefix nv rt pre k accepted post
          (fun e he => hpre e (List.mem_cons_of_mem _ he)) hesc
        simp [runShowRules, h1, hp, hrec]

/-- C1 (amended): an escape-marked value makes the field visible provided
every `show` key iterated before it passes its membership test (or itself
escapes); the escape then short-circuits the whole predicate to visible,
regardless of the key's accepted set and of any `hide` rules.  (As
originally stated — for *any* show key — the claim fails: a failing key
iterated earlier returns `false` first, see the counterexample.) -/
theorem C1_escape_overrides_show_amended
    (values : PValue) (nodeValuesRoot : Option PValue)
    (parameter : INodeProperties)
    (hideRules : Option (List (String × List PValue)))
    (pre post : List (String × List PValue)) (k : String)
    (accepted : List PValue)
    (hdo : parameter.displayOptions =
      some ⟨some (pre ++ (k, accepted) :: post), hideRules⟩)
    (hpre : ∀ e ∈ pre,
      showKeyPasses (some values)
        (if truthyOpt nodeValuesRoot then nodeValuesRoot else some values)
        e.1 e.2 = true ∨
      showKeyEscapes (some values)
        (if truthyOpt nodeValuesRoot then nodeValuesRoot else some values)
        e.1 = true)
    (hesc : showKeyEscapes (some values)
      (if truthyOpt nodeValuesRoot then nodeValuesRoot else some values)
      k = true) :
    displayParameter values parameter nodeValuesRoot = true := by
  have hrun := runShowRules_escape_prefix (some values)
    (if truthyOpt nodeValuesRoot then nodeValuesRoot else some values)
    pre k accepted post hpre hesc
  unfold displayParameter displayParameterCore
  rw [hdo]
  simp [hrun]

/-- C1 counterexample: with show keys `A` (accepting `x`) then `B`
(accepting `y`) and values `{A: "z", B: "=expr()"}`, the value resolved for
show key `B` is an escape string, yet `displayParameter` returns `false`:
the earlier key `A` fails its membership test first. -/
theorem C1_counterexample :
    displayParameter c1Values c1Parameter none = false ∧
    showKeyEscapes (some c1Values) (some c1Values) "B" = true :=
  ⟨rfl, rfl⟩

/-- Witness for the amended C1 at the specification's own example:
`show: {A: ["x"]}` with `{A: "=expr()"}` is visible. -/
theorem C1_witness :
    displayParameter (.obj [("A", .str "=expr()")]) c1ExampleParameter none =
      true :=
  C1_escape_overrides_show_amended (.obj [("A", .str "=expr()")]) none
    c1ExampleParameter none [] [] "A" [.str "x"] rfl (by simp) rfl

/-- C5 (amended): for a `fixedCollection` field with `multipleValues`, a
user value naming an unknown alternative group with at least one element is
a fatal error (`Could not find property option ...`, line 666).  (Without
`multipleValues` the unknown group is silently dropped instead — see the
counterexample.) -/
theorem C5_unknown_group_amended
    (name displayName : String) (dv : PValue)
    (entries : List PropOrCollection) (g : String) (v0 : PValue)
    (vs : List PValue) (fuel : Nat)
    (hunknown : ∀ e ∈ entries, e.entryName ≠ g) :
    getNodeParameters (fuel + 1)
      [.mk name displayName "fixedCollection" dv false none
        (some ⟨some true⟩) (some entries)]
      (some (.obj [(name, .obj [(g, .arr (v0 :: vs))])]))
      true true false false none none =
    Except.error ("Could not find property option \"" ++ g ++ "\" for \"" ++
      name ++ "\"") := by
  have hfind : entries.find? (fun e => e.entryName == g) = none := by
    rw [List.find?_eq_none]
    intro e he
    simpa using hunknown e he
  unfold getNodeParameters
  simp [gnpCore, getParamterDependencies, duplicateParameterNamesOf,
    depsLookup, INodeProperties.name, INodeProperties.displayOptions,
    INodeProperties.type, INodeProperties.typeOptions, INodeProperties.options,
    INodeProperties.multipleValuesTrue, truthyOpt, truthy,
    getParamterResolveOrder, resolveOrderFuel, resolveOrderLoop,
    runFold, gnpStep, emitProp, fcItemStep, fcElemStep, findOptionEntry,
    entryValues, jsIndex, jsMemberPrim, lookupFirst, jsIterate, jsKeys,
    hfind, Except.map, Except.bind, bind, pure, Except.pure]

/-- Witness for the amended C5 at a concrete schema and value. -/
theorem C5_witness :
    getNodeParameters 1
      [.mk "fc" "fc" "fixedCollection" (.obj []) false none
        (some ⟨some true⟩) (some [.collection "g2" []])]
      (some (.obj [("fc", .obj [("bad", .arr [.obj []])])]))
      true true false false none none =
    Except.error "Could not find property option \"bad\" for \"fc\"" :=
  C5_unknown_group_amended "fc" "fc" (.obj []) [.collection "g2" []] "bad"
    (.obj []) [] 0 (by decide)

/-- C6: for a scalar field of subtype boolean, number or options under
`returnDefaults`, the resolved value is the user value whenever it is
defined and the declared default exactly when it is undefined
(lines 580-583). -/
theorem C6_scalar_explicit_value_preserved
    (name displayName ty : String) (dv : PValue) (required : Bool)
    (tOpts : Option TypeOptions) (opts : Option (List PropOrCollection))
    (userFields : List (String × PValue)) (fuel : Nat)
    (hty : ty = "boolean" ∨ ty = "number" ∨ ty = "options") :
    getNodeParameters (fuel + 1)
      [.mk name displayName ty dv required none tOpts opts]
      (some (.obj userFields)) true true false false none none =
    Except.ok (some (.obj [(name, (lookupFirst userFields name).getD dv)])) := by
  unfold getNodeParameters
  rcases hty with h | h | h <;> subst h <;>
  simp [gnpCore, getParamterDependencies, duplicateParameterNamesOf,
    depsLookup, INodeProperties.name, INodeProperties.displayOptions,
    INodeProperties.type, INodeProperties.typeOptions, INodeProperties.options,
    INodeProperties.defaultValue, scalarDefaultedValue, truthyOpt, truthy,
    getParamterResolveOrder, resolveOrderFuel, resolveOrderLoop,
    runFold, gnpStep, emitProp, jsIndex, jsMemberPrim, objSet,
    Except.map, Except.bind, bind, pure, Except.pure]

/-- Witness for C6: an explicit `false` on a boolean field whose default is
`true` is preserved, not replaced by the default. -/
theorem C6_witness :
    getNodeParameters 1
      [.mk "flag" "flag" "boolean" (.bool true) false none none none]
      (some (.obj [("flag", .bool false)])) true true false false none none =
    Except.ok (some (.obj [("flag", .bool false)])) := by
  have h := C6_scalar_explicit_value_preserved "flag" "flag" "boolean"
    (.bool true) false none none [("flag", .bool false)] 0 (Or.inl rfl)
  simpa [lookupFirst] using h

/-- C7: for a visible required scalar string field, an empty-string or
missing value yields exactly one "is required" finding naming the field,
and any non-empty string yields no finding at all. -/
theorem C7_required_string
    (name displayName : String) (dv : PValue) (dOpts : Option DisplayOptions)
    (nodeValues : PValue) (fuel : Nat)
    (hvis : displayParameterPath nodeValues
      (requiredStringProp name displayName dv dOpts) "" = true) :
    ((getParameterValueByPath nodeValues name "" = none ∨
      getParameterValueByPath nodeValues name "" = some (.str "")) →
      getParameterIssues (fuel + 1)
        (requiredStringProp name displayName dv dOpts) nodeValues "" =
      Except.ok ⟨false, false,
        some [(name, ["Parameter \"" ++ displayName ++ "\" is required."])],
        none⟩) ∧
    (∀ s : String, getParameterValueByPath nodeValues name "" = some (.str s) →
      s ≠ "" →
      getParameterIssues (fuel + 1)
        (requiredStringProp name displayName dv dOpts) nodeValues "" =
      Except.ok noIssues) := by
  simp only [requiredStringProp] at hvis
  constructor
  · intro hv
    rcases hv with hv | hv <;>
    simp [getParameterIssues, requiredStringProp, INodeProperties.name,
      INodeProperties.displayName, INodeProperties.type,
      INodeProperties.required, INodeProperties.typeOptions,
      INodeProperties.options, hvis, hv, multipleValuesDefined,
      addToIssuesIfMissing, noIssues, addIssueMessages]
  · intro s hv hs
    simp [getParameterIssues, requiredStringProp, INodeProperties.name,
      INodeProperties.displayName, INodeProperties.type,
      INodeProperties.required, INodeProperties.typeOptions,
      INodeProperties.options, hvis, hv, hs, multipleValuesDefined,
      addToIssuesIfMissing, noIssues]

/-- Witness for C7: a required string field supplied `""` gets exactly the
one expected finding. -/
theorem C7_witness :
    getParameterIssues 1 (requiredStringProp "url" "URL" (.str "") none)
      (.obj [("url", .str "")]) "" =
    Except.ok ⟨false, false,
      some [("url", ["Parameter \"URL\" is required."])], none⟩ :=
  (C7_required_string "url" "URL" (.str "") none (.obj [("url", .str "")]) 0
    (by decide)).1 (Or.inr (by decide))

theorem msgsLookup_addIssueMessages :
    ∀ (d : List (String × List String)) (k j : String) (m : List String),
      msgsLookup (addIssueMessages d k m) j =
        if j = k then some ((msgsLookup d k).getD [] ++ m) else msgsLookup d j
  | [], k, j, m => by
      by_cases h : j = k
      · simp [addIssueMessages, msgsLookup, h]
      · simp [addIssueMessages, msgsLookup, h, Ne.symm h]
  | (k2, m2) :: rest, k, j, m => by
      by_cases h2 : k2 = k
      · subst h2
        by_cases h : j = k2
        · simp [addIssueMessages, msgsLookup, h]
        · simp [addIssueMessages, msgsLookup, h, Ne.symm h]
      · by_cases h : j = k2
        · subst h
          simp [addIssueMessages, msgsLookup, h2, Ne.symm h2]
        · simp [addIssueMessages, msgsLookup, h2, h, Ne.symm h,
            msgsLookup_addIssueMessages rest k j m]

theorem msgsLookup_eq_none :
    ∀ (l : List (String × List String)) (k : String),
      (l.map Prod.fst).contains k = false → msgsLookup l k = none
  | [], k, _ => rfl
  | (k2, m2) :: rest, k, h => by
      simp only [List.map, List.contains_cons, Bool.or_eq_false_iff] at h
      have hne : ¬ (k2 = k) := by
        intro he
        rw [he] at h
        simp at h
      simp [msgsLookup, hne, msgsLookup_eq_none rest k h.2]

theorem distinctNames_cons {a : String} {l : List String}
    (h : distinctNames (a :: l) = true) :
    l.contains a = false ∧ distinctNames l = true := by
  simp only [distinctNames, Bool.and_eq_true, Bool.not_eq_true'] at h
  exact h

theorem msgsLookup_mergeObjectProperty :
    ∀ (s d : List (String × List String)) (j : String),
      distinctNames (s.map Prod.fst) = true →
      msgsLookup (mergeObjectProperty d s) j =
        match msgsLookup s j with
        | some sm => some ((msgsLookup d j).getD [] ++ sm)
        | none => msgsLookup d j
  | [], d, j, _ => by simp [mergeObjectProperty, msgsLookup]
  | (k1, m1) :: t, d, j, hdis => by
      have hd := distinctNames_cons hdis
      have ih := msgsLookup_mergeObjectProperty t (addIssueMessages d k1 m1) j hd.2
      show msgsLookup (mergeObjectProperty (addIssueMessages d k1 m1) t) j = _
      rw [ih]
      by_cases h : j = k1
      · subst h
        have ht : msgsLookup t j = none := msgsLookup_eq_none t j hd.1
        simp [msgsLookup, ht, msgsLookup_addIssueMessages]
      · simp [msgsLookup, Ne.symm h, h, msgsLookup_addIssueMessages]

theorem addIssueMessages_same :
    ∀ (d : List (String × List String)) (k : String) (m1 m2 : List String),
      addIssueMessages (addIssueMessages d k m1) k m2 =
        addIssueMessages d k (m1 ++ m2)
  | [], k, m1, m2 => by simp [addIssueMessages]
  | (k2, m) :: rest, k, m1, m2 => by
      by_cases h : k2 = k
      · simp [addIssueMessages, h]
      · simp [addIssueMessages, h, addIssueMessages_same rest k m1 m2]

theorem contains_addIssueMessages_self :
    ∀ (d : List (String × List String)) (k : String) (m : List String),
      ((addIssueMessages d k m).map Prod.fst).contains k = true
  | [], k, m => by simp [addIssueMessages]
  | (k2, m2) :: rest, k, m => by
      by_cases h : k2 = k
      · simp [addIssueMessages, h]
      · have ih := contains_addIssueMessages_self rest k m
        simp only [addIssueMessages, if_neg h, List.map, List.contains_cons,
          ih, Bool.or_true]

theorem contains_addIssueMessages_of_contains :
    ∀ (d : List (String × List String)) (k j : String) (m : List String),
      (d.map Prod.fst).contains j = true →
      ((addIssueMessages d k m).map Prod.fst).contains j = true
  | [], k, j, m, h => by simp at h
  | (k2, m2) :: rest, k, j, m, h => by
      by_cases hk : k2 = k
      · simpa [addIssueMessages, hk] using h
      · simp only [List.map, List.contains_cons, Bool.or_eq_true] at h
        rcases h with h | h
        · simp only [addIssueMessages, if_neg hk, List.map,
            List.contains_cons, h, Bool.true_or]
        · have ih := contains_addIssueMessages_of_contains rest k j m h
          simp only [addIssueMessages, if_neg hk, List.map,
            List.contains_cons, ih, Bool.or_true]

theorem addIssueMessages_append_of_not_contains :
    ∀ (d : List (String × List String)) (k : String) (m : List String),
      (d.map Prod.fst).contains k = false →
      addIssueMessages d k m = d ++ [(k, m)]
  | [], k, m, _ => rfl
  | (k2, m2) :: rest, k, m, h => by
      simp only [List.map, List.contains_cons, Bool.or_eq_false_iff] at h
      have hne : ¬ (k2 = k) := by
        intro he
        rw [he] at h
        simp at h
      simp [addIssueMessages, hne,
        addIssueMessages_append_of_not_contains rest k m h.2]

theorem addIssueMessages_cons_self (k : String) (md m : List String)
    (rest : List (String × List String)) :
    addIssueMessages ((k, md) :: rest) k m = (k, md ++ m) :: rest := by
  show (if k = k then _ else _) = _
  rw [if_pos rfl]

theorem addIssueMessages_cons_ne {k2 k : String} (h : ¬ (k2 = k))
    (md m : List String) (rest : List (String × List String)) :
    addIssueMessages ((k2, md) :: rest) k m =
      (k2, md) :: addIssueMessages rest k m := by
  show (if k2 = k then _ else _) = _
  rw [if_neg h]

theorem addIssueMessages_comm_of_contains :
    ∀ (d : List (String × List String)) (k k2 : String) (m m2 : List String),
      k ≠ k2 → (d.map Prod.fst).contains k = true →
      addIssueMessages (addIssueMessages d k m) k2 m2 =
        addIssueMessages (addIssueMessages d k2 m2) k m
  | [], k, k2, m, m2, hne, h => by simp at h
  | (kd, md) :: rest, k, k2, m, m2, hne, h => by
      by_cases h1 : kd = k
      · subst h1
        rw [addIssueMessages_cons_self, addIssueMessages_cons_ne hne,
          addIssueMessages_cons_ne hne, addIssueMessages_cons_self]
      · by_cases h2 : kd = k2
        · subst h2
          rw [addIssueMessages_cons_ne h1, addIssueMessages_cons_self,
            addIssueMessages_cons_self, addIssueMessages_cons_ne h1]
        · simp only [List.map, List.contains_cons, Bool.or_eq_true] at h
          rcases h with h | h
          · exact absurd (eq_of_beq h).symm h1
          · have ih := addIssueMessages_comm_of_contains rest k k2 m m2 hne h
            rw [addIssueMessages_cons_ne h1, addIssueMessages_cons_ne h2,
              addIssueMessages_cons_ne h2, addIssueMessages_cons_ne h1, ih]

theorem mergeObjectProperty_nil (d : List (String × List String)) :
    mergeObjectProperty d [] = d := rfl

theorem mergeObjectProperty_cons (d : List (String × List String))
    (k : String) (m : List String) (t : List (String × List String)) :
    mergeObjectProperty d ((k, m) :: t) =
      mergeObjectProperty (addIssueMessages d k m) t := rfl

theorem mergeObjectProperty_addIssue_dest :
    ∀ (t d : List (String × List String)) (k : String) (m : List String),
      ((t.map Prod.fst).contains k) = false →
      ((d.map Prod.fst).contains k) = true →
      mergeObjectProperty (addIssueMessages d k m) t =
        addIssueMessages (mergeObjectProperty d t) k m
  | [], d, k, m, _, _ => rfl
  | (k2, m2) :: t2, d, k, m, ht, hd => by
      simp only [List.map, List.contains_cons, Bool.or_eq_false_iff] at ht
      have hne : k ≠ k2 := by
        intro he
        rw [he] at ht
        simp at ht
      rw [mergeObjectProperty_cons, mergeObjectProperty_cons,
        addIssueMessages_comm_of_contains d k k2 m m2 hne hd,
        mergeObjectProperty_addIssue_dest t2 (addIssueMessages d k2 m2) k m
          ht.2 (contains_addIssueMessages_of_contains d k2 k m2 hd)]

theorem containsAppend :
    ∀ (xs ys : List String) (a : String),
      (xs ++ ys).contains a = (xs.contains a || ys.contains a)
  | [], ys, a => by simp
  | x :: xs, ys, a => by
      simp only [List.cons_append, List.contains_cons,
        containsAppend xs ys a, Bool.or_assoc]

theorem distinct_append_fresh :
    ∀ (l : List String) (k : String),
      distinctNames l = true → l.contains k = false →
      distinctNames (l ++ [k]) = true
  | [], k, _, _ => by simp [distinctNames]
  | a :: l, k, h, hc => by
      simp only [List.contains_cons, Bool.or_eq_false_iff] at hc
      simp only [distinctNames, Bool.and_eq_true, Bool.not_eq_true'] at h
      have hak : (a == k) = false :=
        beq_false_of_ne (fun he => absurd he.symm (ne_of_beq_false hc.1))
      simp only [List.cons_append, distinctNames, Bool.and_eq_true,
        Bool.not_eq_true']
      refine ⟨?_, distinct_append_fresh l k h.2 hc.2⟩
      rw [List.append_eq, containsAppend]
      simp only [List.contains_cons, List.contains_nil, Bool.or_false]
      rw [h.1, hak]
      rfl

theorem distinct_addIssueMessages :
    ∀ (s : List (String × List String)) (k : String) (m : List String),
      distinctNames (s.map Prod.fst) = true →
      distinctNames ((addIssueMessages s k m).map Prod.fst) = true := by
  intro s k m h
  cases hc : (s.map Prod.fst).contains k with
  | true =>
    have hkeys : (addIssueMessages s k m).map Prod.fst = s.map Prod.fst := by
      clear h
      induction s with
      | nil => simp at hc
      | cons e rest ih =>
        rcases e with ⟨k2, m2⟩
        by_cases h2 : k2 = k
        · subst h2
          rw [addIssueMessages_cons_self]
          simp
        · rw [addIssueMessages_cons_ne h2]
          simp only [List.map] at hc ⊢
          simp only [List.contains_cons, Bool.or_eq_true] at hc
          rcases hc with hc | hc
          · exact absurd (eq_of_beq hc).symm h2
          · simp [ih hc]
    rw [hkeys]
    exact h
  | false =>
    rw [addIssueMessages_append_of_not_contains s k m hc]
    rw [List.map_append]
    exact distinct_append_fresh (s.map Prod.fst) k h hc

theorem mergeObjectProperty_addIssue_src :
    ∀ (s d : List (String × List String)) (k : String) (m : List String),
      distinctNames (s.map Prod.fst) = true →
      mergeObjectProperty d (addIssueMessages s k m) =
        addIssueMessages (mergeObjectProperty d s) k m
  | [], d, k, m, _ => rfl
  | (k1, m1) :: t, d, k, m, hdis => by
      have hd := distinctNames_cons hdis
      by_cases hk : k1 = k
      · subst hk
        rw [addIssueMessages_cons_self, mergeObjectProperty_cons,
          mergeObjectProperty_cons, ← addIssueMessages_same d k1 m1 m]
        exact mergeObjectProperty_addIssue_dest t (addIssueMessages d k1 m1)
          k1 m hd.1 (contains_addIssueMessages_self d k1 m1)
      · rw [addIssueMessages_cons_ne hk, mergeObjectProperty_cons,
          mergeObjectProperty_cons]
        exact mergeObjectProperty_addIssue_src t (addIssueMessages d k1 m1)
          k m hd.2

theorem mergeObjectProperty_assoc :
    ∀ (s2 s1 d : List (String × List String)),
      distinctNames (s1.map Prod.fst) = true →
      distinctNames (s2.map Prod.fst) = true →
      mergeObjectProperty d (mergeObjectProperty s1 s2) =
        mergeObjectProperty (mergeObjectProperty d s1) s2
  | [], s1, d, _, _ => rfl
  | (k, m) :: t, s1, d, h1, h2 => by
      have hd := distinctNames_cons h2
      rw [mergeObjectProperty_cons, mergeObjectProperty_cons,
        ← mergeObjectProperty_addIssue_src s1 d k m h1]
      exact mergeObjectProperty_assoc t (addIssueMessages s1 k m) d
        (distinct_addIssueMessages s1 k m h1) hd.2

theorem mergeObjectProperty_disjoint_append :
    ∀ (t d : List (String × List String)),
      (∀ j, (t.map Prod.fst).contains j = true →
        (d.map Prod.fst).contains j = false) →
      distinctNames (t.map Prod.fst) = true →
      mergeObjectProperty d t = d ++ t
  | [], d, _, _ => by simp [mergeObjectProperty_nil]
  | (k, m) :: t2, d, hdisj, hdis => by
      have hd := distinctNames_cons hdis
      have hk : (d.map Prod.fst).contains k = false := by
        apply hdisj
        simp only [List.map, List.contains_cons, beq_self_eq_true, Bool.true_or]
      rw [mergeObjectProperty_cons,
        addIssueMessages_append_of_not_contains d k m hk,
        mergeObjectProperty_disjoint_append t2 (d ++ [(k, m)]) ?_ hd.2]
      · simp
      · intro j hj
        rw [List.map_append, containsAppend]
        have hdj : (d.map Prod.fst).contains j = false := by
          apply hdisj
          simp only [List.map, List.contains_cons, hj, Bool.or_true]
        have hne : (j == k) = false := by
          apply beq_false_of_ne
          intro he
          subst he
          rw [hj] at hd
          simp at hd
        simp only [List.map, List.contains_cons, List.contains_nil,
          Bool.or_false, hdj, hne]

theorem mergeObjectProperty_id (s : List (String × List String))
    (h : distinctNames (s.map Prod.fst) = true) :
    mergeObjectProperty [] s = s := by
  rw [mergeObjectProperty_disjoint_append s [] (by intro j _; rfl) h]
  simp

theorem mergeIssueProperty_assoc (a b c : Option (List (String × List String)))
    (hb : distinctNames ((b.getD []).map Prod.fst) = true)
    (hc : distinctNames ((c.getD []).map Prod.fst) = true) :
    mergeIssueProperty (mergeIssueProperty a b) c =
      mergeIssueProperty a (mergeIssueProperty b c) := by
  cases c with
  | none => rfl
  | some cp =>
    cases b with
    | none =>
      show some (mergeObjectProperty (a.getD []) cp) =
        some (mergeObjectProperty (a.getD []) (mergeObjectProperty [] cp))
      rw [mergeObjectProperty_id cp hc]
    | some bp =>
      show some (mergeObjectProperty (mergeObjectProperty (a.getD []) bp) cp) =
        some (mergeObjectProperty (a.getD []) (mergeObjectProperty bp cp))
      rw [mergeObjectProperty_assoc cp bp (a.getD []) hb hc]

theorem C8_mergeIssues_concat_assoc :
    (∀ (destination source : INodeIssues) (sp : List (String × List String))
       (k : String) (msgs : List String),
       wellFormedIssues source = true →
       source.parameters = some sp →
       msgsLookup sp k = some msgs →
       ((msgsLookup ((mergeIssues (mergeIssues destination (some source))
           (some source)).parameters.getD []) k).getD []).length =
         ((msgsLookup (destination.parameters.getD []) k).getD []).length +
           2 * msgs.length) ∧
    (∀ a b c : INodeIssues,
       wellFormedIssues b = true → wellFormedIssues c = true →
       mergeIssues (mergeIssues a (some b)) (some c) =
         mergeIssues a (some (mergeIssues b (some c)))) ∧
    (∀ a b : INodeIssues,
       (mergeIssues a (some b)).execution = (a.execution || b.execution) ∧
       (mergeIssues a (some b)).typeUnknown = (a.typeUnknown || b.typeUnknown)) := by
  refine ⟨?_, ?_, ?_⟩
  · intro destination source sp k msgs hwf hsp hlk
    have hdis : distinctNames (sp.map Prod.fst) = true := by
      simp only [wellFormedIssues, Bool.and_eq_true, hsp,
        Option.getD_some] at hwf
      exact hwf.1
    have hres : (mergeIssues (mergeIssues destination (some source))
        (some source)).parameters =
        some (mergeObjectProperty (mergeObjectProperty
          (destination.parameters.getD []) sp) sp) := by
      simp [mergeIssues, mergeIssueProperty, hsp]
    rw [hres, Option.getD_some,
      msgsLookup_mergeObjectProperty sp _ k hdis,
      msgsLookup_mergeObjectProperty sp _ k hdis, hlk]
    simp [two_mul, Nat.add_assoc]
  · intro a b c hwb hwc
    simp only [wellFormedIssues, Bool.and_eq_true] at hwb hwc
    cases a with
    | mk ae au ap ac =>
    cases b with
    | mk be bu bp bc =>
    cases c with
    | mk ce cu cp cc =>
    simp only [mergeIssues, INodeIssues.mk.injEq]
    exact ⟨Bool.or_assoc ae be ce, Bool.or_assoc au bu cu,
      mergeIssueProperty_assoc ap bp cp hwb.1 hwc.1,
      mergeIssueProperty_assoc ac bc cc hwb.2 hwc.2⟩
  · intro a b
    exact ⟨rfl, rfl⟩

/-- Witness for C8 at concrete issue trees: doubling, associativity and
OR-combined flags all instantiated. -/
theorem C8_witness :
    ((msgsLookup ((mergeIssues (mergeIssues
        (⟨false, false, some [("a", ["d"])], none⟩ : INodeIssues)
        (some ⟨false, false, some [("a", ["m"])], none⟩))
        (some ⟨false, false, some [("a", ["m"])], none⟩)).parameters.getD [])
        "a").getD []).length =
      ((msgsLookup ((some [("a", ["d"])] :
        Option (List (String × List String))).getD []) "a").getD []).length +
        2 * (["m"] : List String).length ∧
    mergeIssues (mergeIssues
        (⟨true, false, some [("a", ["1"])], none⟩ : INodeIssues)
        (some ⟨false, true, some [("a", ["2"]), ("b", ["3"])], none⟩))
        (some ⟨false, false, some [("b", ["4"])], none⟩) =
      mergeIssues (⟨true, false, some [("a", ["1"])], none⟩ : INodeIssues)
        (some (mergeIssues
          (⟨false, true, some [("a", ["2"]), ("b", ["3"])], none⟩ : INodeIssues)
          (some ⟨false, false, some [("b", ["4"])], none⟩))) ∧
    (mergeIssues (⟨true, false, none, none⟩ : INodeIssues)
        (some ⟨false, true, none, none⟩)).execution = (true || false) := by
  refine ⟨?_, ?_, ?_⟩
  · exact C8_mergeIssues_concat_assoc.1
      ⟨false, false, some [("a", ["d"])], none⟩
      ⟨false, false, some [("a", ["m"])], none⟩
      [("a", ["m"])] "a" ["m"] (by decide) rfl rfl
  · exact C8_mergeIssues_concat_assoc.2.1
      ⟨true, false, some [("a", ["1"])], none⟩
      ⟨false, true, some [("a", ["2"]), ("b", ["3"])], none⟩
      ⟨false, false, some [("b", ["4"])], none⟩ (by decide) (by decide)
  · exact (C8_mergeIssues_concat_assoc.2.2
      ⟨true, false, none, none⟩ ⟨false, true, none, none⟩).1

theorem lookupFirst_objSet_self (fields : List (String × PValue)) (k : String)
    (v : PValue) : lookupFirst (objSet fields k v) k = some v := by
  induction fields with
  | nil => simp [objSet, lookupFirst]
  | cons e rest ih =>
    rcases e with ⟨k2, w⟩
    by_cases h : k2 = k
    · simp [objSet, lookupFirst, h]
    · simp [objSet, lookupFirst, h, ih]

theorem lookupFirst_objSet_ne (fields : List (String × PValue)) (k j : String)
    (v : PValue) (h : ¬ (j = k)) :
    lookupFirst (objSet fields k v) j = lookupFirst fields j := by
  have hkj : ¬ (k = j) := fun he => h he.symm
  induction fields with
  | nil => simp [objSet, lookupFirst, hkj]
  | cons e rest ih =>
    rcases e with ⟨k2, w⟩
    by_cases h2 : k2 = k
    · subst h2
      simp [objSet, lookupFirst, hkj]
    · by_cases h3 : k2 = j
      · simp [objSet, lookupFirst, h2, h3, h]
      · simp [objSet, lookupFirst, h2, h3, ih]

theorem objSet_append_fresh (fields : List (String × PValue)) (k : String)
    (v : PValue) (h : (fields.map Prod.fst).contains k = false) :
    objSet fields k v = fields ++ [(k, v)] := by
  induction fields with
  | nil => rfl
  | cons e rest ih =>
    rcases e with ⟨k2, w⟩
    simp only [List.map, List.contains_cons, Bool.or_eq_false_iff] at h
    have hne : ¬ (k2 = k) := fun he => by
      rw [he] at h
      simp at h
    simp [objSet, hne, ih h.2]

theorem mem_objSet {fields : List (String × PValue)} {k j : String}
    {v w : PValue} (h : (j, w) ∈ objSet fields k v) :
    (j = k ∧ w = v) ∨ (j, w) ∈ fields := by
  induction fields with
  | nil =>
    simp [objSet] at h
    exact Or.inl h
  | cons e rest ih =>
    rcases e with ⟨k2, w2⟩
    by_cases h2 : k2 = k
    · subst h2
      simp only [objSet, if_pos rfl] at h
      rcases List.mem_cons.mp h with h | h
      · injection h with h3 h4
        exact Or.inl ⟨h3.symm ▸ rfl, h4⟩
      · exact Or.inr (List.mem_cons_of_mem _ h)
    · simp only [objSet, if_neg h2] at h
      rcases List.mem_cons.mp h with h | h
      · exact Or.inr (h ▸ List.mem_cons_self _ _)
      · rcases ih h with h | h
        · exact Or.inl h
        · exact Or.inr (List.mem_cons_of_mem _ h)

theorem distinct_objSet (fields : List (String × PValue)) (k : String)
    (v : PValue) (h : distinctNames (fields.map Prod.fst) = true) :
    distinctNames ((objSet fields k v).map Prod.fst) = true := by
  cases hc : (fields.map Prod.fst).contains k with
  | true =>
    have hkeys : (objSet fields k v).map Prod.fst = fields.map Prod.fst := by
      clear h
      induction fields with
      | nil => simp at hc
      | cons e rest ih =>
        rcases e with ⟨k2, w⟩
        by_cases h2 : k2 = k
        · subst h2
          simp [objSet]
        · simp only [List.map, List.contains_cons, Bool.or_eq_true] at hc
          rcases hc with hc | hc
          · exact absurd (eq_of_beq hc).symm h2
          · simp [objSet, h2, ih hc]
    rw [hkeys]
    exact h
  | false =>
    rw [objSet_append_fresh fields k v hc, List.map_append]
    exact distinct_append_fresh (fields.map Prod.fst) k h hc

theorem contains_of_mem {l : List String} {a : String} (h : a ∈ l) :
    l.contains a = true :=
  List.elem_eq_true_of_mem h

theorem mem_lookupFirst {fields : List (String × PValue)} {k : String}
    {v : PValue} (hdis : distinctNames (fields.map Prod.fst) = true)
    (h : (k, v) ∈ fields) : lookupFirst fields k = some v := by
  induction fields with
  | nil => simp at h
  | cons e rest ih =>
    rcases e with ⟨k2, w⟩
    have hd : (rest.map Prod.fst).contains k2 = false ∧
        distinctNames (rest.map Prod.fst) = true := distinctNames_cons hdis
    rcases List.mem_cons.mp h with h | h
    · injection h with h3 h4
      subst h3
      simp [lookupFirst, h4]
    · by_cases h2 : k2 = k
      · subst h2
        have hcm : (rest.map Prod.fst).contains k2 = true :=
          contains_of_mem (List.mem_map_of_mem Prod.fst h)
        rw [hcm] at hd
        exact absurd hd.1 (by simp)
      · simp [lookupFirst, h2, ih hd.2 h]

theorem duplicateParameterNames_aux :
    ∀ (props : List INodeProperties) (dups seen : List String),
      distinctNames (props.map INodeProperties.name) = true →
      (∀ p ∈ props, seen.contains p.name = false) →
      (props.foldl
        (fun acc nodeProperties =>
          if acc.2.contains nodeProperties.name then
            if acc.1.contains nodeProperties.name then acc
            else (acc.1 ++ [nodeProperties.name], acc.2)
          else (acc.1, acc.2 ++ [nodeProperties.name]))
        (dups, seen)).1 = dups
  | [], dups, seen, _, _ => rfl
  | p :: rest, dups, seen, hdis, hseen => by
      have hd := distinctNames_cons hdis
      have hp : seen.contains p.name = false := hseen p (List.mem_cons_self _ _)
      simp only [List.foldl, hp, Bool.false_eq_true, if_false]
      exact duplicateParameterNames_aux rest dups (seen ++ [p.name]) hd.2
        (fun q hq => by
          rw [containsAppend]
          have h1 : seen.contains q.name = false :=
            hseen q (List.mem_cons_of_mem _ hq)
          have h2 : (q.name == p.name) = false := by
            apply beq_false_of_ne
            intro he
            have : (rest.map INodeProperties.name).contains p.name = true := by
              rw [← he]
              exact contains_of_mem (List.mem_map_of_mem _ hq)
            rw [this] at hd
            exact absurd hd.1 (by simp)
          rw [h1]
          simp only [List.contains_cons, List.contains_nil, Bool.false_or,
            Bool.or_false, h2])

theorem duplicateParameterNames_nil (props : List INodeProperties)
    (hdis : distinctNames (props.map INodeProperties.name) = true) :
    duplicateParameterNamesOf props = [] :=
  duplicateParameterNames_aux props [] [] hdis (fun p _ => rfl)

theorem distinct_get_inj :
    ∀ (l : List String) (i j : Nat) (a : String),
      distinctNames l = true → l.get? i = some a → l.get? j = some a → i = j
  | [], i, j, a, _, hi, _ => by simp at hi
  | b :: t, 0, 0, a, _, _, _ => rfl
  | b :: t, 0, j + 1, a, hdis, hi, hj => by
      have hd := distinctNames_cons hdis
      simp only [List.get?] at hi hj
      have hb : b = a := by injection hi
      subst hb
      have : t.contains b = true := contains_of_mem (List.get?_mem hj)
      rw [this] at hd
      exact absurd hd.1 (by simp)
  | b :: t, i + 1, 0, a, hdis, hi, hj => by
      have hd := distinctNames_cons hdis
      simp only [List.get?] at hi hj
      have hb : b = a := by injection hj
      subst hb
      have : t.contains b = true := contains_of_mem (List.get?_mem hi)
      rw [this] at hd
      exact absurd hd.1 (by simp)
  | b :: t, i + 1, j + 1, a, hdis, hi, hj => by
      have hd := distinctNames_cons hdis
      simp only [List.get?] at hi hj
      rw [distinct_get_inj t i j a hd.2 hi hj]

theorem props_name_inj (props : List INodeProperties) (i j : Nat)
    (pi pj : INodeProperties)
    (hdis : distinctNames (props.map INodeProperties.name) = true)
    (hi : props.get? i = some pi) (hj : props.get? j = some pj)
    (hn : pi.name = pj.name) : i = j := by
  apply distinct_get_inj (props.map INodeProperties.name) i j pi.name hdis
  · rw [List.get?_map, hi]
    rfl
  · rw [List.get?_map, hj]
    exact congrArg some hn.symm

theorem runFold_ok_cons {σ α : Type} {step : σ → α → Except String σ}
    {a : α} {rest : List α} {st stF : σ}
    (h : runFold step (a :: rest) st = Except.ok stF) :
    ∃ st2, step st a = Except.ok st2 ∧ runFold step rest st2 = Except.ok stF := by
  cases hs : step st a with
  | error e =>
    rw [show runFold step (a :: rest) st = Except.error e from by
      simp [runFold, hs]] at h
    simp at h
  | ok st2 =>
    refine ⟨st2, rfl, ?_⟩
    rw [show runFold step (a :: rest) st = runFold step rest st2 from by
      simp [runFold, hs]] at h
    exact h

theorem goodAll_mem :
    ∀ {props : List INodeProperties} {p : INodeProperties},
      goodAll props = true → p ∈ props → goodProp p = true
  | [], p, _, hm => by simp at hm
  | q :: rest, p, hg, hm => by
      have hg2 : goodProp q = true ∧ goodAll rest = true := by
        simpa [goodAll, Bool.and_eq_true] using hg
      rcases List.mem_cons.mp hm with hm | hm
      · exact hm ▸ hg2.1
      · exact goodAll_mem hg2.2 hm

theorem goodEntries_mem :
    ∀ {entries : List PropOrCollection} {e : PropOrCollection},
      goodEntries entries = true → e ∈ entries → goodEntry e = true
  | [], e, _, hm => by simp at hm
  | q :: rest, e, hg, hm => by
      have hg2 : goodEntry q = true ∧ goodEntries rest = true := by
        simpa [goodEntries, Bool.and_eq_true] using hg
      rcases List.mem_cons.mp hm with hm | hm
      · exact hm ▸ hg2.1
      · exact goodEntries_mem hg2.2 hm

theorem scalarDefaulted_idem (p : INodeProperties) (v : Option PValue) :
    scalarDefaultedValue p (some (scalarDefaultedValue p v)) =
      scalarDefaultedValue p v := by
  unfold scalarDefaultedValue
  cases hc : ["boolean", "number", "options"].contains p.type with
  | true => simp
  | false =>
    simp only [Bool.false_eq_true, if_false]
    cases v with
    | none => cases ht : truthy p.defaultValue <;> simp [ht]
    | some w =>
      cases hw : truthy w
      · cases ht : truthy p.defaultValue <;> simp [hw, ht]
      · simp [hw]

theorem goodProp_type_ne_collection {p : INodeProperties}
    (h : goodProp p = true) : (p.type == "collection") = false := by
  rcases p with ⟨n, dn, ty, dv, rq, dO, tO, opts⟩
  unfold goodProp at h
  rw [Bool.and_eq_true] at h
  have h2 := h.1
  simp only [bne, Bool.not_eq_true'] at h2
  exact h2

theorem goodProp_entries {p : INodeProperties}
    {entries : List PropOrCollection} (h : goodProp p = true)
    (ho : p.options = some entries) : goodEntries entries = true := by
  rcases p with ⟨n, dn, ty, dv, rq, dO, tO, opts⟩
  unfold goodProp at h
  rw [Bool.and_eq_true] at h
  have ho2 : opts = some entries := ho
  subst ho2
  exact h.2

theorem goodEntry_values {e : PropOrCollection}
    {vs : List INodeProperties} (h : goodEntry e = true)
    (hv : entryValues e = Except.ok vs) : goodSchema vs = true := by
  cases e with
  | prop p => simp [entryValues] at hv
  | collection n values =>
    have : values = vs := by simpa [entryValues] using hv
    subst this
    simpa [goodEntry, goodSchema] using h

theorem findOptionEntry_good {opts : Option (List PropOrCollection)}
    {g : String} {entry : PropOrCollection} {p : INodeProperties}
    (hgood : goodProp p = true) (ho : p.options = opts)
    (h : findOptionEntry opts g = Except.ok (some entry)) :
    goodEntry entry = true := by
  cases opts with
  | none => simp [findOptionEntry] at h
  | some entries =>
    have hf : entries.find? (fun e => e.entryName == g) = some entry := by
      simpa [findOptionEntry] using h
    exact goodEntries_mem (goodProp_entries hgood ho)
      (List.mem_of_find?_eq_some hf)

theorem runFold_congr {σ α : Type} {s1 s2 : σ → α → Except String σ}
    (h : ∀ st a, s1 st a = s2 st a) :
    ∀ (l : List α) (st : σ), runFold s1 l st = runFold s2 l st
  | [], st => rfl
  | a :: rest, st => by
      rw [show runFold s1 (a :: rest) st = (match s1 st a with
        | .error e => .error e
        | .ok st2 => runFold s1 rest st2) from rfl]
      rw [show runFold s2 (a :: rest) st = (match s2 st a with
        | .error e => .error e
        | .ok st2 => runFold s2 rest st2) from rfl]
      rw [h st a]
      cases s2 st a with
      | error e => rfl
      | ok st2 => exact runFold_congr h rest st2

theorem fcElemStep_root_inv (recur : RecurT) (hr : RecurRootInv recur)
    (prop : INodeProperties) (g : String) (rc1 rc2 : PValue)
    (hgood : goodProp prop = true) (acc : List PValue) (e : PValue) :
    fcElemStep recur prop g true true rc1 acc e =
      fcElemStep recur prop g true true rc2 acc e := by
  unfold fcElemStep
  cases hf : findOptionEntry prop.options g with
  | error err => simp [Except.bind, bind, hf]
  | ok entry? =>
    cases entry? with
    | none => simp [Except.bind, bind, hf]
    | some entry =>
      cases hv : entryValues entry with
      | error err => simp [Except.bind, bind, hf, hv]
      | ok vs =>
        have hgs : goodSchema vs = true :=
          goodEntry_values (findOptionEntry_good hgood rfl hf) hv
        have hrr := hr vs (some e) (some rc1) (some rc2) (some prop.type) hgs
        simp [Except.bind, bind, hf, hv, hrr]

theorem fcItemStep_root_inv (recur : RecurT) (hr : RecurRootInv recur)
    (prop : INodeProperties) (nv pv : Option PValue) (rc1 rc2 : PValue)
    (hgood : goodProp prop = true) (cv : List (String × PValue)) (g : String) :
    fcItemStep recur prop nv pv true true rc1 cv g =
      fcItemStep recur prop nv pv true true rc2 cv g := by
  unfold fcItemStep
  by_cases hm : prop.multipleValuesTrue = true
  · simp only [hm, if_true]
    cases hi : jsIterate (jsMemberPrim (pv.getD (.obj [])) g) with
    | error err => simp [Except.bind, bind, hi]
    | ok elems =>
      have hfold := runFold_congr
        (fcElemStep_root_inv recur hr prop g rc1 rc2 hgood) elems []
      simp [Except.bind, bind, hi, hfold]
  · have hm2 : prop.multipleValuesTrue = false := by
      revert hm
      cases prop.multipleValuesTrue <;> simp
    simp only [hm2, Bool.false_eq_true, if_false]
    cases hf : findOptionEntry prop.options g with
    | error err => simp [Except.bind, bind, hf]
    | ok entry? =>
      cases entry? with
      | none => simp [Except.bind, bind, hf]
      | some entry =>
        cases hv : entryValues entry with
        | error err => simp [Except.bind, bind, hf, hv]
        | ok vs =>
          have hgs : goodSchema vs = true :=
            goodEntry_values (findOptionEntry_good hgood rfl hf) hv
          cases hb : jsIndex nv prop.name with
          | error err => simp [Except.bind, bind, hf, hv, hb]
          | ok base =>
            cases hb2 : jsIndex base g with
            | error err => simp [Except.bind, bind, hf, hv, hb, hb2]
            | ok innerVal =>
              have hrr := hr vs innerVal (some rc1) (some rc2)
                (some prop.type) hgs
              simp [Except.bind, bind, hf, hv, hb, hb2, hrr]

theorem emitProp_root_inv (recur : RecurT) (hr : RecurRootInv recur)
    (prop : INodeProperties) (nv : Option PValue) (dc1 rc1 dc2 rc2 : PValue)
    (pt : Option String) (hgood : goodProp prop = true) :
    emitProp recur [] nv true true false dc1 rc1 pt prop =
      emitProp recur [] nv true true false dc2 rc2 pt prop := by
  unfold emitProp
  cases hv : jsIndex nv prop.name with
  | error err => simp [Except.bind, bind, hv]
  | ok v =>
    simp only [Except.bind, bind, hv, Bool.not_true, Bool.false_and,
      Bool.false_or, Bool.not_false, List.contains, List.elem,
      Bool.and_false, if_false]
    split
    · rfl
    · split
      · rfl
      · split
        · rfl
        · rw [goodProp_type_ne_collection hgood]
          simp only [Bool.false_eq_true, if_false]
          split
          · rw [runFold_congr
              (fcItemStep_root_inv recur hr prop nv _ rc1 rc2 hgood) _ _]
          · rfl

theorem gnpStep_root_inv (recur : RecurT) (hr : RecurRootInv recur)
    (props : List INodeProperties) (nv : Option PValue)
    (rf1 rf2 : Option PValue) (pt : Option String)
    (hall : goodAll props = true)
    (st : List (String × PValue) × List (String × PValue)) (i : Nat) :
    gnpStep recur props [] nv true true false none rf1 pt st i =
      gnpStep recur props [] nv true true false none rf2 pt st i := by
  unfold gnpStep
  cases hg : props.get? i with
  | none => rfl
  | some prop =>
    have hgp : goodProp prop = true := goodAll_mem hall (List.get?_mem hg)
    dsimp only
    rw [emitProp_root_inv recur hr prop nv
      ((none : Option PValue).getD (.obj st.2)) (rf1.getD (.obj st.2))
      ((none : Option PValue).getD (.obj st.2)) (rf2.getD (.obj st.2)) pt hgp]

theorem gnpCore_root_inv :
    ∀ (fuel : Nat) (props : List INodeProperties) (nv : Option PValue)
      (r1 r2 : Option PValue) (pt : Option String),
      goodSchema props = true →
      gnpCore fuel props nv true true false false r1 pt =
        gnpCore fuel props nv true true false false r2 pt
  | 0, props, nv, r1, r2, pt, _ => rfl
  | fuel + 1, props, nv, r1, r2, pt, hgood => by
      have hparts : distinctNames (props.map INodeProperties.name) = true ∧
          goodAll props = true := by
        simpa [goodSchema, Bool.and_eq_true] using hgood
      have hrec : RecurRootInv (fun ps nv2 rd rnd os dr root pt2 =>
          (gnpCore fuel ps nv2 rd rnd os dr root pt2).map
            (fun fields => some (PValue.obj fields))) := by
        intro ps nv2 rr1 rr2 pt2 hg
        exact congrArg (Except.map (fun fields => some (PValue.obj fields)))
          (gnpCore_root_inv fuel ps nv2 rr1 rr2 pt2 hg)
      simp only [gnpCore, Bool.not_false, Bool.not_true, Bool.and_false,
        Bool.false_eq_true, if_false, Except.bind, bind, pure, Except.pure,
        duplicateParameterNames_nil props hparts.1]
      cases horder : getParamterResolveOrder props
          (getParamterDependencies props) with
      | error e => rfl
      | ok o =>
        dsimp only
        rw [runFold_congr
          (gnpStep_root_inv _ hrec props nv
            (if truthyOpt r1 then r1 else none)
            (if truthyOpt r2 then r2 else none) pt hparts.2) o ([], [])]

theorem gnpStep_eq_fixed (recur : RecurT) (hr : RecurRootInv recur)
    (props : List INodeProperties) (nv : Option PValue)
    (rf : Option PValue) (pt : Option String)
    (hall : goodAll props = true)
    (st : List (String × PValue) × List (String × PValue)) (i : Nat) :
    gnpStep recur props [] nv true true false none rf pt st i =
      gnpStepF recur props nv pt st i := by
  unfold gnpStep gnpStepF emitFixed
  cases hg : props.get? i with
  | none => rfl
  | some prop =>
    have hgp : goodProp prop = true := goodAll_mem hall (List.get?_mem hg)
    dsimp only
    rw [emitProp_root_inv recur hr prop nv
      ((none : Option PValue).getD (.obj st.2)) (rf.getD (.obj st.2))
      (.obj []) (.obj []) pt hgp]

theorem gnpStepF_ok_elim {recur : RecurT} {props : List INodeProperties}
    {nv : Option PValue} {pt : Option String}
    {st1 st2 : List (String × PValue) × List (String × PValue)} {i : Nat}
    (h : gnpStepF recur props nv pt st1 i = Except.ok st2) :
    ∃ prop e, props.get? i = some prop ∧
      emitFixed recur nv pt prop = Except.ok e := by
  unfold gnpStepF at h
  cases hg : props.get? i with
  | none => rw [hg] at h; simp at h
  | some prop =>
    rw [hg] at h
    dsimp only at h
    cases he : emitFixed recur nv pt prop with
    | error err => rw [he] at h; simp at h
    | ok e => exact ⟨prop, e, rfl, he⟩

theorem runFold_all_ok {σ α : Type} {step : σ → α → Except String σ} :
    ∀ (l : List α) (st stF : σ), runFold step l st = Except.ok stF →
      ∀ a ∈ l, ∃ st1 st2, step st1 a = Except.ok st2
  | [], _, _, _, a, ha => by simp at ha
  | b :: rest, st, stF, h, a, ha => by
      rcases runFold_ok_cons h with ⟨st2, hs, hrest⟩
      rcases List.mem_cons.mp ha with ha | ha
      · exact ⟨st, st2, ha ▸ hs⟩
      · exact runFold_all_ok rest st2 stF hrest a ha

theorem runFold_steps_agree {σ α : Type} {s1 s2 : σ → α → Except String σ} :
    ∀ (l : List α) (st stF : σ), runFold s1 l st = Except.ok stF →
      (∀ a ∈ l, ∀ st2, s1 st2 a = s2 st2 a) →
      runFold s2 l st = Except.ok stF
  | [], _, _, h, _ => h
  | a :: rest, st, stF, h, hag => by
      rcases runFold_ok_cons h with ⟨st2, hs, hrest⟩
      have hs2 : s2 st a = Except.ok st2 := by
        rw [← hag a (List.mem_cons_self _ _) st]
        exact hs
      rw [show runFold s2 (a :: rest) st = runFold s2 rest st2 from by
        simp [runFold, hs2]]
      exact runFold_steps_agree rest st2 stF hrest
        (fun b hb st3 => hag b (List.mem_cons_of_mem _ hb) st3)

theorem fcItemStep_shape {recur : RecurT} {prop : INodeProperties}
    {nv pv : Option PValue} {rd rnd : Bool} {rc : PValue}
    {cv cv2 : List (String × PValue)} {g : String}
    (h : fcItemStep recur prop nv pv rd rnd rc cv g = Except.ok cv2) :
    cv2 = cv ∨ ∃ x, cv2 = objSet cv g x := by
  unfold fcItemStep at h
  by_cases hm : prop.multipleValuesTrue = true
  · rw [if_pos hm] at h
    simp only [Except.bind, bind] at h
    cases hi : jsIterate (jsMemberPrim (pv.getD (.obj [])) g) with
    | error err => rw [hi] at h; simp at h
    | ok elems =>
      rw [hi] at h
      dsimp only at h
      cases hf : runFold (fcElemStep recur prop g rd rnd rc) elems [] with
      | error err => rw [hf] at h; simp at h
      | ok tav =>
        rw [hf] at h
        dsimp only at h
        exact Or.inr ⟨.arr tav, by injection h with h2; exact h2.symm⟩
  · rw [if_neg hm] at h
    simp only [Except.bind, bind] at h
    cases hf : findOptionEntry prop.options g with
    | error err => rw [hf] at h; simp at h
    | ok entry? =>
      rw [hf] at h
      dsimp only at h
      cases entry? with
      | none => exact Or.inl (by injection h with h2; exact h2.symm)
      | some entry =>
        dsimp only at h
        cases hv : entryValues entry with
        | error err => rw [hv] at h; simp at h
        | ok vs =>
          rw [hv] at h
          dsimp only at h
          cases hb : jsIndex nv prop.name with
          | error err => rw [hb] at h; simp at h
          | ok base =>
            rw [hb] at h
            dsimp only at h
            cases hb2 : jsIndex base g with
            | error err => rw [hb2] at h; simp at h
            | ok innerVal =>
              rw [hb2] at h
              dsimp only at h
              cases hr : recur vs innerVal rd rnd false false (some rc)
                  (some prop.type) with
              | error err => rw [hr] at h; simp at h
              | ok tv =>
                rw [hr] at h
                dsimp only at h
                split at h
                · exact Or.inl (by injection h with h2; exact h2.symm)
                · exact Or.inr ⟨_, by injection h with h2; exact h2.symm⟩

theorem fcFold_distinct {recur : RecurT} {prop : INodeProperties}
    {nv pv : Option PValue} {rd rnd : Bool} {rc : PValue} :
    ∀ (keys : List String) (cv0 cv1 : List (String × PValue)),
      runFold (fcItemStep recur prop nv pv rd rnd rc) keys cv0 =
        Except.ok cv1 →
      distinctNames (cv0.map Prod.fst) = true →
      distinctNames (cv1.map Prod.fst) = true
  | [], cv0, cv1, h, hd => by
      have : cv0 = cv1 := by simpa [runFold] using h
      rw [← this]
      exact hd
  | k :: keys, cv0, cv1, h, hd => by
      rcases runFold_ok_cons h with ⟨cvm, hs, hrest⟩
      rcases fcItemStep_shape hs with he | ⟨x, he⟩
      · exact fcFold_distinct keys cvm cv1 hrest (he ▸ hd)
      · exact fcFold_distinct keys cvm cv1 hrest
          (he ▸ distinct_objSet cv0 k x hd)

theorem distinct_middle :
    ∀ (l1 : List String) (a : String) (l2 : List String),
      distinctNames (l1 ++ a :: l2) = true → l1.contains a = false
  | [], _, _, _ => rfl
  | b :: l1, a, l2, h => by
      have hd := distinctNames_cons (show distinctNames
        (b :: (l1 ++ a :: l2)) = true from h)
      have ih := distinct_middle l1 a l2 hd.2
      have hb : (l1 ++ a :: l2).contains b = false := hd.1
      rw [containsAppend] at hb
      rcases Bool.or_eq_false_iff.mp hb with ⟨_, h2⟩
      simp only [List.contains_cons] at h2
      rcases Bool.or_eq_false_iff.mp h2 with ⟨h3, _⟩
      have hab : (a == b) = false :=
        beq_false_of_ne (fun he => absurd he.symm (ne_of_beq_false h3))
      simp only [List.contains_cons, ih, Bool.or_false, hab]

theorem rebuild_fold (step : List (String × PValue) → String →
      Except String (List (String × PValue))) :
    ∀ (suf pre : List (String × PValue)),
      (∀ g w, (g, w) ∈ suf → ∀ acc, step acc g = Except.ok (objSet acc g w)) →
      distinctNames ((pre ++ suf).map Prod.fst) = true →
      runFold step (suf.map Prod.fst) pre = Except.ok (pre ++ suf)
  | [], pre, _, _ => by simp [runFold]
  | (g, w) :: suf, pre, hstep, hdis => by
      have h1 : step pre g = Except.ok (objSet pre g w) :=
        hstep g w (List.mem_cons_self _ _) pre
      have hfresh : (pre.map Prod.fst).contains g = false := by
        have := distinct_middle (pre.map Prod.fst) g (suf.map Prod.fst)
        apply this
        simpa using hdis
      have h2 : objSet pre g w = pre ++ [(g, w)] :=
        objSet_append_fresh _ _ _ hfresh
      rw [show (((g, w) :: suf).map Prod.fst) = g :: suf.map Prod.fst from rfl]
      rw [show runFold step (g :: suf.map Prod.fst) pre =
        runFold step (suf.map Prod.fst) (pre ++ [(g, w)]) from by
        simp [runFold, h1, h2]]
      rw [rebuild_fold step suf (pre ++ [(g, w)])
        (fun g2 w2 hm acc => hstep g2 w2 (List.mem_cons_of_mem _ hm) acc)
        (by rw [List.append_assoc]; simpa using hdis)]
      simp

theorem fcElemFold_members (recur : RecurT) (hri : RecurRootInv recur)
    (hsh : RecurObjShape recur) (hid : RecurIdem recur)
    (prop : INodeProperties) (hgood : goodProp prop = true)
    (g : String) (rc1 : PValue) :
    ∀ (elems acc0 tav : List PValue),
      runFold (fcElemStep recur prop g true true rc1) elems acc0 =
        Except.ok tav →
      (∀ t ∈ acc0, ElemRep recur prop g t) →
      ∀ t ∈ tav, ElemRep recur prop g t
  | [], acc0, tav, h, hinv => by
      have he : acc0 = tav := by simpa [runFold] using h
      exact he ▸ hinv
  | e :: elems, acc0, tav, h, hinv => by
      rcases runFold_ok_cons h with ⟨acc1, hs, hrest⟩
      refine fcElemFold_members recur hri hsh hid prop hgood g rc1
        elems acc1 tav hrest ?_
      unfold fcElemStep at hs
      simp only [Except.bind, bind] at hs
      cases hf : findOptionEntry prop.options g with
      | error err => rw [hf] at hs; simp at hs
      | ok entry? =>
        rw [hf] at hs
        dsimp only at hs
        cases entry? with
        | none => simp at hs
        | some entry =>
          dsimp only at hs
          cases hv : entryValues entry with
          | error err => rw [hv] at hs; simp at hs
          | ok vs =>
            rw [hv] at hs
            dsimp only at hs
            cases hr : recur vs (some e) true true false false (some rc1)
                (some prop.type) with
            | error err => rw [hr] at hs; simp at hs
            | ok tv =>
              rw [hr] at hs
              dsimp only at hs
              cases tv with
              | none =>
                have hacc : acc1 = acc0 := by
                  injection hs with h2
                  exact h2.symm
                exact hacc ▸ hinv
              | some t =>
                have hacc : acc1 = acc0 ++ [t] := by
                  injection hs with h2
                  exact h2.symm
                subst hacc
                intro u hu
                rcases List.mem_append.mp hu with hu | hu
                · exact hinv u hu
                · have hut : u = t := by simpa using hu
                  subst hut
                  have hgs : goodSchema vs = true :=
                    goodEntry_values (findOptionEntry_good hgood rfl hf) hv
                  rcases hsh vs (some e) true true false false (some rc1)
                      (some prop.type) (some u) hr with ⟨fs, hfs⟩
                  have hfs2 : u = PValue.obj fs := by
                    injection hfs with h3
                  subst hfs2
                  refine ⟨entry, vs, fs, hf, hv, hgs, rfl, ?_⟩
                  intro rc
                  have hidr := hid vs (some e) (some rc1) (some prop.type)
                    fs hgs hr
                  exact (hri vs (some (PValue.obj fs)) (some rc) (some rc1)
                    (some prop.type) hgs).trans hidr

theorem fcElemFold_rebuild (recur : RecurT) (prop : INodeProperties)
    (g : String) (rc : PValue) :
    ∀ (ts acc : List PValue),
      (∀ t ∈ ts, ElemRep recur prop g t) →
      runFold (fcElemStep recur prop g true true rc) ts acc =
        Except.ok (acc ++ ts)
  | [], acc, _ => by simp [runFold]
  | t :: rest, acc, hrep => by
      rcases hrep t (List.mem_cons_self _ _) with
        ⟨entry, vs, fs, hf, hv, hgs, hshape, hrec⟩
      have hstep : fcElemStep recur prop g true true rc acc t =
          Except.ok (acc ++ [t]) := by
        unfold fcElemStep
        simp [Except.bind, bind, hf, hv, hrec rc]
      rw [show runFold (fcElemStep recur prop g true true rc) (t :: rest) acc =
        runFold (fcElemStep recur prop g true true rc) rest (acc ++ [t]) from by
        simp [runFold, hstep]]
      rw [fcElemFold_rebuild recur prop g rc rest (acc ++ [t])
        (fun u hu => hrep u (List.mem_cons_of_mem _ hu))]
      simp

theorem fcItemStep_rebuild (recur : RecurT) (prop : INodeProperties)
    (nv2 : Option PValue) (cv1 : List (String × PValue))
    (hnv : jsIndex nv2 prop.name = Except.ok (some (PValue.obj cv1)))
    (hdis : distinctNames (cv1.map Prod.fst) = true)
    (g : String) (w : PValue) (hmem : (g, w) ∈ cv1)
    (hreb : Rebuildable recur prop g w) (acc : List (String × PValue))
    (rc : PValue) :
    fcItemStep recur prop nv2 (some (PValue.obj cv1)) true true rc acc g =
      Except.ok (objSet acc g w) := by
  have hlk : lookupFirst cv1 g = some w := mem_lookupFirst hdis hmem
  rcases hreb with ⟨ts, hw, hm, hts⟩ |
    ⟨entry, vs, fs, hf, hv, hgs, hw, hm, hne, hrec⟩
  · subst hw
    unfold fcItemStep
    rw [if_pos hm]
    have hmem2 : jsMemberPrim ((some (PValue.obj cv1)).getD (.obj [])) g =
        some (PValue.arr ts) := by
      simp [jsMemberPrim, hlk]
    rw [hmem2]
    simp [Except.bind, bind, jsIterate,
      fcElemFold_rebuild recur prop g rc ts [] hts]
  · subst hw
    unfold fcItemStep
    rw [if_neg (by simp [hm])]
    have hinner : jsIndex (some (PValue.obj cv1)) g =
        Except.ok (some (PValue.obj fs)) := by
      simp [jsIndex, jsMemberPrim, hlk]
    have hemp : fs.isEmpty = false := by
      cases fs with
      | nil => exact absurd rfl hne
      | cons a l => rfl
    simp [Except.bind, bind, hf, hv, hnv, hinner, hrec rc, jsAssignFields, hemp]

theorem fcFold_rebuildable (recur : RecurT) (hri : RecurRootInv recur)
    (hsh : RecurObjShape recur) (hid : RecurIdem recur)
    (prop : INodeProperties) (hgood : goodProp prop = true)
    (nv1 pv1 : Option PValue) (rc1 : PValue) :
    ∀ (keys : List String) (cv0 cv1 : List (String × PValue)),
      runFold (fcItemStep recur prop nv1 pv1 true true rc1) keys cv0 =
        Except.ok cv1 →
      (∀ g w, (g, w) ∈ cv0 → Rebuildable recur prop g w) →
      ∀ g w, (g, w) ∈ cv1 → Rebuildable recur prop g w
  | [], cv0, cv1, h, hinv => by
      have he : cv0 = cv1 := by simpa [runFold] using h
      exact he ▸ hinv
  | g0 :: keys, cv0, cv1, h, hinv => by
      rcases runFold_ok_cons h with ⟨cvm, hs, hrest⟩
      refine fcFold_rebuildable recur hri hsh hid prop hgood nv1 pv1 rc1
        keys cvm cv1 hrest ?_
      unfold fcItemStep at hs
      by_cases hm : prop.multipleValuesTrue = true
      · rw [if_pos hm] at hs
        simp only [Except.bind, bind] at hs
        cases hi : jsIterate (jsMemberPrim (pv1.getD (.obj [])) g0) with
        | error err => rw [hi] at hs; simp at hs
        | ok elems =>
          rw [hi] at hs
          dsimp only at hs
          cases hfold : runFold (fcElemStep recur prop g0 true true rc1)
              elems [] with
          | error err => rw [hfold] at hs; simp at hs
          | ok tav =>
            rw [hfold] at hs
            dsimp only at hs
            have hcm : cvm = objSet cv0 g0 (.arr tav) := by
              injection hs with h2
              exact h2.symm
            subst hcm
            intro g w hmem
            rcases mem_objSet hmem with ⟨hg, hw⟩ | hmem2
            · subst hg
              subst hw
              exact Or.inl ⟨tav, rfl, hm,
                fcElemFold_members recur hri hsh hid prop hgood g rc1
                  elems [] tav hfold (fun t ht => by simp at ht)⟩
            · exact hinv g w hmem2
      · rw [if_neg hm] at hs
        have hm2 : prop.multipleValuesTrue = false := by
          revert hm
          cases prop.multipleValuesTrue <;> simp
        simp only [Except.bind, bind] at hs
        cases hf : findOptionEntry prop.options g0 with
        | error err => rw [hf] at hs; simp at hs
        | ok entry? =>
          rw [hf] at hs
          dsimp only at hs
          cases entry? with
          | none =>
            have hcm : cvm = cv0 := by
              injection hs with h2
              exact h2.symm
            exact hcm ▸ hinv
          | some entry =>
            dsimp only at hs
            cases hv : entryValues entry with
            | error err => rw [hv] at hs; simp at hs
            | ok vs =>
              rw [hv] at hs
              dsimp only at hs
              cases hb : jsIndex nv1 prop.name with
              | error err => rw [hb] at hs; simp at hs
              | ok base =>
                rw [hb] at hs
                dsimp only at hs
                cases hb2 : jsIndex base g0 with
                | error err => rw [hb2] at hs; simp at hs
                | ok innerVal =>
                  rw [hb2] at hs
                  dsimp only at hs
                  cases hr : recur vs innerVal true true false false
                      (some rc1) (some prop.type) with
                  | error err => rw [hr] at hs; simp at hs
                  | ok tv =>
                    rw [hr] at hs
                    dsimp only at hs
                    rcases hsh vs innerVal true true false false (some rc1)
                        (some prop.type) tv hr with ⟨fs, htv⟩
                    subst htv
                    dsimp only [jsAssignFields] at hs
                    have hgs : goodSchema vs = true :=
                      goodEntry_values (findOptionEntry_good hgood rfl hf) hv
                    cases hfs : fs with
                    | nil =>
                      rw [hfs] at hs
                      simp only [List.isEmpty, if_true] at hs
                      have hcm : cvm = cv0 := by
                        injection hs with h2
                        exact h2.symm
                      exact hcm ▸ hinv
                    | cons a l =>
                      rw [hfs] at hs
                      simp only [List.isEmpty, Bool.false_eq_true,
                        if_false] at hs
                      have hcm : cvm = objSet cv0 g0 (.obj (a :: l)) := by
                        injection hs with h2
                        exact h2.symm
                      subst hcm
                      intro g w hmem
                      rcases mem_objSet hmem with ⟨hg, hw⟩ | hmem2
                      · subst hg
                        subst hw
                        refine Or.inr ⟨entry, vs, a :: l, hf, hv, hgs, rfl,
                          hm2, by simp, ?_⟩
                        intro rc
                        have hidr := hid vs innerVal (some rc1)
                          (some prop.type) (a :: l) hgs (hfs ▸ hr)
                        exact (hri vs (some (PValue.obj (a :: l))) (some rc)
                          (some rc1) (some prop.type) hgs).trans hidr
                      · exact hinv g w hmem2

theorem gnpFoldF_preserve (recur : RecurT) (props : List INodeProperties)
    (nv : Option PValue) (pt : Option String) (k : String) :
    ∀ (o : List Nat)
      (st stF : List (String × PValue) × List (String × PValue)),
      runFold (gnpStepF recur props nv pt) o st = Except.ok stF →
      (∀ j ∈ o, ∀ q, props.get? j = some q → q.name = k →
        emitFixed recur nv pt q = Except.ok none) →
      lookupFirst stF.1 k = lookupFirst st.1 k
  | [], st, stF, h, _ => by
      have he : st = stF := by simpa [runFold] using h
      rw [he]
  | a :: rest, st, stF, h, hnone => by
      rcases runFold_ok_cons h with ⟨st2, hs, hrest⟩
      rw [gnpFoldF_preserve recur props nv pt k rest st2 stF hrest
        (fun j hj => hnone j (List.mem_cons_of_mem _ hj))]
      unfold gnpStepF at hs
      cases hg : props.get? a with
      | none => rw [hg] at hs; simp at hs
      | some prop =>
        rw [hg] at hs
        dsimp only at hs
        cases he : emitFixed recur nv pt prop with
        | error err => rw [he] at hs; simp at hs
        | ok e? =>
          rw [he] at hs
          cases e? with
          | none =>
            have hst : st2 = st := by
              injection hs with h2
              exact h2.symm
            rw [hst]
          | some v =>
            have hst : st2 = (objSet st.1 prop.name v,
                objSet st.2 prop.name v) := by
              injection hs with h2
              exact h2.symm
            subst hst
            have hnk : ¬ (k = prop.name) := by
              intro hk
              have := hnone a (List.mem_cons_self _ _) prop hg hk.symm
              rw [this] at he
              simp at he
            exact lookupFirst_objSet_ne st.1 prop.name k v hnk

theorem gnpFoldF_lookup (recur : RecurT) (props : List INodeProperties)
    (nv : Option PValue) (pt : Option String)
    (hdis : distinctNames (props.map INodeProperties.name) = true) :
    ∀ (o : List Nat)
      (st stF : List (String × PValue) × List (String × PValue)),
      runFold (gnpStepF recur props nv pt) o st = Except.ok stF →
      ∀ i ∈ o, ∀ prop v, props.get? i = some prop →
        emitFixed recur nv pt prop = Except.ok (some v) →
        lookupFirst stF.1 prop.name = some v
  | [], _, _, _, i, hi, _, _, _, _ => by simp at hi
  | a :: rest, st, stF, h, i, hi, prop, v, hgq, he => by
      rcases runFold_ok_cons h with ⟨st2, hs, hrest⟩
      by_cases hir : i ∈ rest
      · exact gnpFoldF_lookup recur props nv pt hdis rest st2 stF hrest
          i hir prop v hgq he
      · have hia : i = a := by
          rcases List.mem_cons.mp hi with hia | hia
          · exact hia
          · exact absurd hia hir
        subst hia
        unfold gnpStepF at hs
        rw [hgq] at hs
        dsimp only at hs
        rw [he] at hs
        have hst : st2 = (objSet st.1 prop.name v,
            objSet st.2 prop.name v) := by
          injection hs with h2
          exact h2.symm
        subst hst
        rw [gnpFoldF_preserve recur props nv pt prop.name rest _ stF hrest ?_]
        · exact lookupFirst_objSet_self st.1 prop.name v
        · intro j hj q hjq hqname
          have hji : j = i := props_name_inj props j i q prop hdis hjq hgq hqname
          exact absurd (hji ▸ hj) hir

theorem contains_nil_eq (a : String) : ([] : List String).contains a = false :=
  rfl

theorem emitProp_idem (recur : RecurT) (hri : RecurRootInv recur)
    (hsh : RecurObjShape recur) (hid : RecurIdem recur)
    (prop : INodeProperties) (hgood : goodProp prop = true)
    (nv1 nv2 : Option PValue) (pt : Option String) (e : Option PValue)
    (h1 : emitFixed recur nv1 pt prop = Except.ok e)
    (h2 : jsIndex nv2 prop.name = Except.ok e) :
    emitFixed recur nv2 pt prop = Except.ok e := by
  unfold emitFixed emitProp at h1 ⊢
  cases hv1 : jsIndex nv1 prop.name with
  | error err =>
    rw [hv1] at h1
    simp [Except.bind, bind] at h1
  | ok v1 =>
    rw [hv1] at h1
    rw [h2]
    simp only [Except.bind, bind] at h1 ⊢
    simp only [Bool.not_true, Bool.false_or, Bool.false_and, Bool.true_and,
      Bool.or_true, Bool.false_eq_true, if_false, contains_nil_eq,
      goodProp_type_ne_collection hgood, eq_self_iff_true, if_true] at h1 ⊢
    by_cases hA : (v1.isNone && (pt == some "collection")) = true
    · rw [if_pos hA] at h1
      have he : e = none := by
        injection h1 with h3
        exact h3.symm
      subst he
      have hparts : v1.isNone = true ∧ (pt == some "collection") = true := by
        rw [Bool.and_eq_true] at hA
        exact hA
      rw [if_pos (show ((none : Option PValue).isNone &&
        (pt == some "collection")) = true by
          simp only [Option.isNone_none, Bool.true_and]
          exact hparts.2)]
    · rw [if_neg hA] at h1
      by_cases hS : (!(["collection", "fixedCollection"].contains prop.type))
          = true
      · rw [if_pos hS] at h1
        have he : e = some (scalarDefaultedValue prop v1) := by
          injection h1 with h3
          exact h3.symm
        subst he
        rw [if_neg (show ¬ (((some (scalarDefaultedValue prop v1)).isNone &&
          (pt == some "collection")) = true) by simp)]
        rw [if_pos hS]
        rw [scalarDefaulted_idem]
      · rw [if_neg hS] at h1
        by_cases hFC : (prop.type == "fixedCollection") = true
        · rw [if_pos hFC] at h1
          split at h1
          · simp at h1
          · rename_i cv hcv
            have he : e = some (PValue.obj cv) := by
              injection h1 with h3
              exact h3.symm
            subst he
            rw [if_neg (show ¬ (((some (PValue.obj cv)).isNone &&
              (pt == some "collection")) = true) by simp)]
            rw [if_neg hS]
            rw [if_pos hFC]
            simp only [Option.isNone_some, Bool.false_eq_true, if_false,
              truthy, jsKeys, eq_self_iff_true, if_true]
            have hdistcv : distinctNames (cv.map Prod.fst) = true :=
              fcFold_distinct _ [] cv hcv rfl
            have hreb := fcFold_rebuildable recur hri hsh hid prop hgood
              nv1 _ _ _ [] cv hcv (fun g w hm => by simp at hm)
            have hrw := rebuild_fold
              (fcItemStep recur prop nv2 (some (.obj cv)) true true (.obj []))
              cv []
              (fun g w hm acc => fcItemStep_rebuild recur prop nv2 cv h2
                hdistcv g w hm (hreb g w hm) acc (.obj []))
              (by simpa using hdistcv)
            simp only [List.nil_append] at hrw
            rw [hrw]
        · exfalso
          have hcont : (["collection", "fixedCollection"].contains prop.type)
              = true := by
            revert hS
            cases (["collection", "fixedCollection"].contains prop.type) <;>
              simp
          rw [List.contains_cons, List.contains_cons, List.contains_nil]
            at hcont
          rw [goodProp_type_ne_collection hgood] at hcont
          simp only [Bool.false_or, Bool.or_false] at hcont
          exact absurd hcont hFC

theorem gnpFold_idem (recur : RecurT) (hri : RecurRootInv recur)
    (hsh : RecurObjShape recur) (hid : RecurIdem recur)
    (props : List INodeProperties)
    (hdis : distinctNames (props.map INodeProperties.name) = true)
    (hall : goodAll props = true)
    (nv : Option PValue) (pt : Option String) (o : List Nat)
    (stF : List (String × PValue) × List (String × PValue))
    (hfold : runFold (gnpStepF recur props nv pt) o ([], []) =
      Except.ok stF) :
    runFold (gnpStepF recur props (some (.obj stF.1)) pt) o ([], []) =
      Except.ok stF := by
  apply runFold_steps_agree o ([], []) stF hfold
  intro i hi st2
  rcases runFold_all_ok o ([], []) stF hfold i hi with ⟨su, sv, hs⟩
  rcases gnpStepF_ok_elim hs with ⟨prop, eI, hgq, he⟩
  have hgp : goodProp prop = true := goodAll_mem hall (List.get?_mem hgq)
  have hlk : jsIndex (some (PValue.obj stF.1)) prop.name = Except.ok eI := by
    cases eI with
    | some v =>
      have hl := gnpFoldF_lookup recur props nv pt hdis o ([], []) stF hfold
        i hi prop v hgq he
      simp [jsIndex, jsMemberPrim, hl]
    | none =>
      have hl : lookupFirst stF.1 prop.name = none := by
        have hp := gnpFoldF_preserve recur props nv pt prop.name o ([], [])
          stF hfold (fun j hj q hjq hqn => by
            have hji : j = i :=
              props_name_inj props j i q prop hdis hjq hgq hqn
            subst hji
            have hq : q = prop := by
              rw [hjq] at hgq
              injection hgq
            subst hq
            exact he)
        simpa [lookupFirst] using hp
      simp [jsIndex, jsMemberPrim, hl]
  have he2 : emitFixed recur (some (PValue.obj stF.1)) pt prop =
      Except.ok eI :=
    emitProp_idem recur hri hsh hid prop hgp nv (some (.obj stF.1)) pt eI
      he hlk
  unfold gnpStepF
  rw [hgq]
  dsimp only
  rw [he, he2]

theorem gnpCore_idem :
    ∀ (fuel : Nat) (props : List INodeProperties) (nv : Option PValue)
      (root : Option PValue) (pt : Option String)
      (F : List (String × PValue)),
      goodSchema props = true →
      gnpCore fuel props nv true true false false root pt = Except.ok F →
      gnpCore fuel props (some (.obj F)) true true false false root pt =
        Except.ok F
  | 0, props, nv, root, pt, F, _, h => by simp [gnpCore] at h
  | fuel + 1, props, nv, root, pt, F, hgood, h => by
      have hparts : distinctNames (props.map INodeProperties.name) = true ∧
          goodAll props = true := by
        simpa [goodSchema, Bool.and_eq_true] using hgood
      have hri : RecurRootInv (fun ps nv2 rd rnd os dr rt pt2 =>
          (gnpCore fuel ps nv2 rd rnd os dr rt pt2).map
            (fun fields => some (PValue.obj fields))) := by
        intro ps nv2 rr1 rr2 pt2 hg
        exact congrArg (Except.map (fun fields => some (PValue.obj fields)))
          (gnpCore_root_inv fuel ps nv2 rr1 rr2 pt2 hg)
      have hsh : RecurObjShape (fun ps nv2 rd rnd os dr rt pt2 =>
          (gnpCore fuel ps nv2 rd rnd os dr rt pt2).map
            (fun fields => some (PValue.obj fields))) := by
        intro ps nv2 rd rnd os dr rt pt2 r hr
        dsimp only at hr
        cases hg : gnpCore fuel ps nv2 rd rnd os dr rt pt2 with
        | error err => rw [hg] at hr; simp [Except.map] at hr
        | ok fs =>
          rw [hg] at hr
          refine ⟨fs, ?_⟩
          have h3 : some (PValue.obj fs) = r := by
            simpa [Except.map] using hr
          exact h3.symm
      have hid : RecurIdem (fun ps nv2 rd rnd os dr rt pt2 =>
          (gnpCore fuel ps nv2 rd rnd os dr rt pt2).map
            (fun fields => some (PValue.obj fields))) := by
        intro ps nv2 rt2 pt2 fs hg hr
        dsimp only at hr ⊢
        cases hgc : gnpCore fuel ps nv2 true true false false rt2 pt2 with
        | error err => rw [hgc] at hr; simp [Except.map] at hr
        | ok F2 =>
          rw [hgc] at hr
          have hF2 : F2 = fs := by
            have h3 : some (PValue.obj F2) = some (PValue.obj fs) := by
              simpa [Except.map] using hr
            injection h3 with h4
            injection h4
          subst hF2
          rw [gnpCore_idem fuel ps nv2 rt2 pt2 F2 hg hgc]
          rfl
      simp only [gnpCore, Bool.not_false, Bool.not_true, Bool.and_false,
        Bool.false_eq_true, if_false, Except.bind, bind, pure, Except.pure,
        duplicateParameterNames_nil props hparts.1] at h ⊢
      cases horder : getParamterResolveOrder props
          (getParamterDependencies props) with
      | error e =>
        rw [horder] at h
        dsimp only at h
        exact absurd h (by simp)
      | ok o =>
        rw [horder] at h
        dsimp only at h ⊢
        split at h
        · rename_i err herr
          simp at h
        · rename_i stF hfold
          have hF : stF.1 = F := by
            injection h with h3
          have hfoldF := runFold_steps_agree o ([], []) stF hfold
            (fun a _ st2 => gnpStep_eq_fixed _ hri props nv _ pt
              hparts.2 st2 a)
          have hpass2F := gnpFold_idem _ hri hsh hid props hparts.1 hparts.2
            nv pt o stF hfoldF
          have hpass2 : runFold (gnpStep (fun ps nv2 rd rnd os dr rt pt2 =>
              (gnpCore fuel ps nv2 rd rnd os dr rt pt2).map
                (fun fields => some (PValue.obj fields))) props []
              (some (PValue.obj F)) true true false none
              (if truthyOpt root = true then root else none) pt) o ([], []) =
              Except.ok stF := by
            rw [runFold_congr (fun st a => gnpStep_eq_fixed _ hri props
              (some (PValue.obj F)) _ pt hparts.2 st a) o ([], [])]
            rw [← hF]
            exact hpass2F
          rw [hpass2]
          dsimp only
          rw [hF]

/-- C4 (amended): for a schema with no `collection`-typed field at any level
and distinct names at every level, `getNodeParameters(S, ., true, true)` is
idempotent: re-resolving a successful result returns it unchanged. -/
theorem C4_idempotent_amended (fuel : Nat) (props : List INodeProperties)
    (nodeValues : Option PValue) (root : Option PValue) (pt : Option String)
    (O : PValue) (hgood : goodSchema props = true)
    (h : getNodeParameters fuel props nodeValues true true false false root pt
      = Except.ok (some O)) :
    getNodeParameters fuel props (some O) true true false false root pt =
      Except.ok (some O) := by
  unfold getNodeParameters at h ⊢
  cases hg : gnpCore fuel props nodeValues true true false false root pt with
  | error err => rw [hg] at h; simp [Except.map] at h
  | ok F =>
    rw [hg] at h
    have hO : O = PValue.obj F := by
      have h3 : some (PValue.obj F) = some O := by
        simpa [Except.map] using h
      injection h3 with h4
      exact h4.symm
    subst hO
    rw [gnpCore_idem fuel props nodeValues root pt F hgood hg]
    rfl

/-- Witness for C4: a two-field schema (defaulted string, explicit boolean)
resolved from a partial user object; re-resolving the output is a fixpoint. -/
theorem C4_witness :
    getNodeParameters 1 c4wProps
      (some (.obj [("a", .str "d"), ("b", .bool false)]))
      true true false false none none =
      Except.ok (some (.obj [("a", .str "d"), ("b", .bool false)])) :=
  C4_idempotent_amended 1 c4wProps (some (.obj [("b", .bool false)])) none
    none (.obj [("a", .str "d"), ("b", .bool false)]) (by decide) rfl
